import Mathlib

/-!
# Verification of the PAA spatial-indexing structures

A shallow embedding of the similarity-search structures of the repository
(linear scan, spatial hash grid, adaptive hash grid, octree, quadtree) and
proofs about their insert/query algorithms.

Modelling conventions:
* C++ `double` coordinates are modelled as exact rationals (`Rat`); the
  floating-point computations of the source are read with real-number
  semantics.
* A comparison `query.distanceTo(img) <= t` (where `distanceTo` is the
  Euclidean distance `sqrt(dr*dr+dg*dg+db*db)`) is embedded, without leaving
  the rationals, as `0 ≤ t ∧ sqDist query img ≤ t*t`, which is equivalent
  over the reals.  Likewise `sqrt(minDistSq) <= t` becomes
  `0 ≤ t ∧ minDistSq ≤ t*t`, and the sort comparator
  `distanceTo a < distanceTo b` becomes `sqDist q a < sqDist q b`.
* `std::sort` with that comparator guarantees a result list that is a
  permutation of the input, non-decreasing in distance; it is embedded as an
  insertion sort with the corresponding non-strict comparator.
* `std::unordered_map<Key, std::vector<Image>> grid` with
  `grid[key].push_back(img)` is embedded by keeping the insertion sequence:
  the bucket of a cell is the subsequence of inserted records whose cell key
  equals that cell (the serialised string keys `"r,g,b"` are injective in the
  three integer cell coordinates, so the key is modelled as `Int × Int × Int`).
* Recursive/iterative procedures whose termination is not structural are
  embedded with explicit fuel, returning `none` when the fuel is exhausted.
-/

/-- The indexed entity of the repository: `struct Image { int id;
std::string filename; double r, g, b; }`. -/
structure Image where
  id : Int
  filename : String
  r : Rat
  g : Rat
  b : Rat
deriving DecidableEq, Repr

instance : Inhabited Image := ⟨⟨0, "", 0, 0, 0⟩⟩

/-- Squared Euclidean distance in RGB space: the square of
`Image::distanceTo` (`sqrt(dr*dr + dg*dg + db*db)`). -/
def sqDist (a b : Image) : Rat :=
  (a.r - b.r) * (a.r - b.r) + (a.g - b.g) * (a.g - b.g) + (a.b - b.b) * (a.b - b.b)

/-- Embedding of `query.distanceTo(img) <= t`. -/
def distLE (q x : Image) (t : Rat) : Bool :=
  decide (0 ≤ t ∧ sqDist q x ≤ t * t)

/-- Embedding of the sort comparator relation: `distanceTo a ≤ distanceTo b`. -/
def distLEcmp (q a b : Image) : Bool :=
  decide (sqDist q a ≤ sqDist q b)

/-- One step of the insertion sort modelling `std::sort` by distance. -/
def insertByDist (q x : Image) : List Image → List Image
  | [] => [x]
  | y :: ys => if distLEcmp q x y then x :: y :: ys else y :: insertByDist q x ys

/-- Sorting a result list ascending by distance to the query
(the `std::sort(results.begin(), results.end(), [&query](a,b){ return
query.distanceTo(a) < query.distanceTo(b); })` step shared by all
structures that sort). -/
def sortByDist (q : Image) : List Image → List Image
  | [] => []
  | x :: xs => insertByDist q x (sortByDist q xs)

/-- The ordering invariant on result lists: consecutive entries are
non-decreasing in distance to the query. -/
def SortedByDist (q : Image) (l : List Image) : Prop :=
  l.Chain' (fun a b => sqDist q a ≤ sqDist q b)

/-! ## Linear search (`LinearSearch::findSimilar`) -/

/-- The `O(n)` filtering pass of `LinearSearch::findSimilar`. -/
def linearCollect (images : List Image) (q : Image) (t : Rat) : List Image :=
  images.filter (fun img => distLE q img t)

/-- `LinearSearch::findSimilar`: brute-force filter, then sort by distance. -/
def linearFindSimilar (images : List Image) (q : Image) (t : Rat) : List Image :=
  sortByDist q (linearCollect images q t)

/-! ## Spatial hash grid -/

/-- C/C++ truncation toward zero (`static_cast<int>` on a real value). -/
def truncQ (x : Rat) : Int :=
  if 0 ≤ x then ⌊x⌋ else ⌈x⌉

/-- `HashSearch::rgbToCell`: `static_cast<int>(value / cellSize)`. -/
def rgbToCell (cs v : Rat) : Int :=
  truncQ (v / cs)

/-- The composite cell key of a record (the serialised `"r,g,b"` string key,
modelled by the injective triple of integer cell coordinates). -/
def cellKey (cs : Rat) (img : Image) : Int × Int × Int :=
  (rgbToCell cs img.r, rgbToCell cs img.g, rgbToCell cs img.b)

/-- The bucket of one grid cell after inserting `grid` in order:
`std::unordered_map` chaining keeps, per key, the subsequence of inserted
records with that key. -/
def bucket (cs : Rat) (grid : List Image) (c : Int × Int × Int) : List Image :=
  grid.filter (fun img => decide (cellKey cs img = c))

/-- The integer interval `[lo, hi]` enumerated by a C `for` loop
`for (i = lo; i <= hi; i++)`. -/
def intRange (lo hi : Int) : List Int :=
  (List.range (hi + 1 - lo).toNat).map (fun (k : Nat) => lo + (k : Int))

/-- `HashSearch::searchSingleCell` (and the body of the cell lookup inside
the cube enumeration): look the cell up and keep the records within the
threshold. -/
def searchSingleCell (cs : Rat) (grid : List Image) (c : Int × Int × Int)
    (q : Image) (t : Rat) : List Image :=
  (bucket cs grid c).filter (fun img => distLE q img t)

/-- The full-cube enumeration of `HashSearch::findSimilar` (main program
variant): every offset `(dr,dg,db)` with each component in
`[-cell_radius, cell_radius]`, `cell_radius = ceil(threshold / cellSize)`. -/
def hashCubeCollect (cs : Rat) (grid : List Image) (q : Image) (t : Rat) :
    List Image :=
  let R : Int := ⌈t / cs⌉
  let qc := cellKey cs q
  (intRange (-R) R).flatMap fun dr =>
    (intRange (-R) R).flatMap fun dg =>
      (intRange (-R) R).flatMap fun db =>
        searchSingleCell cs grid (qc.1 + dr, qc.2.1 + dg, qc.2.2 + db) q t

/-- `HashSearch::findSimilar` (full-cube spatial hash): cube enumeration,
distance filter, then sort ascending by distance. -/
def hashFindSimilar (cs : Rat) (grid : List Image) (q : Image) (t : Rat) :
    List Image :=
  sortByDist q (hashCubeCollect cs grid q t)

/-! ## Adaptive hash grid (`hash_search.h`, `HashSearch::findSimilarDynamic`) -/

/-- The cell-selection condition of `HashSearch::searchCubeAtRadius`
(`hash_search.h`): `abs(dr)+abs(dg)+abs(db) == radius || (abs(dr) == radius
|| abs(dg) == radius || abs(db) == radius)`. -/
def shellCond (radius dr dg db : Int) : Bool :=
  decide (|dr| + |dg| + |db| = radius) ||
    (decide (|dr| = radius) || decide (|dg| = radius) || decide (|db| = radius))

/-- `HashSearch::searchCubeAtRadius` (`hash_search.h`): radius 0 searches the
centre cell; otherwise all offsets in the cube of the given radius that pass
`shellCond`. -/
def searchCubeAtRadius (cs : Rat) (grid : List Image) (qc : Int × Int × Int)
    (radius : Int) (q : Image) (t : Rat) : List Image :=
  if radius = 0 then searchSingleCell cs grid qc q t
  else
    (intRange (-radius) radius).flatMap fun dr =>
      (intRange (-radius) radius).flatMap fun dg =>
        (intRange (-radius) radius).flatMap fun db =>
          if shellCond radius dr dg db then
            searchSingleCell cs grid (qc.1 + dr, qc.2.1 + dg, qc.2.2 + db) q t
          else []

/-- The radius loop of `HashSearch::findSimilarDynamic`, with the early
`break` once `maxResults > 0` and enough results were accumulated. -/
def dynGo (cs : Rat) (grid : List Image) (qc : Int × Int × Int) (q : Image)
    (t : Rat) (maxResults : Int) : List Int → List Image → List Image
  | [], acc => acc
  | r :: rest, acc =>
    let acc' := acc ++ searchCubeAtRadius cs grid qc r q t
    if 0 < maxResults ∧ maxResults ≤ (acc'.length : Int) then acc'
    else dynGo cs grid qc q t maxResults rest acc'

/-- `HashSearch::findSimilarDynamic` (`hash_search.h`): expanding search over
radii `0..ceil(threshold/cellSize)`, early termination on `maxResults`, sort,
then truncation to `maxResults` entries when `maxResults > 0`. -/
def findSimilarDynamic (cs : Rat) (grid : List Image) (q : Image) (t : Rat)
    (maxResults : Int) : List Image :=
  let maxR : Int := ⌈t / cs⌉
  let collected := dynGo cs grid (cellKey cs q) q t maxResults (intRange 0 maxR) []
  let sorted := sortByDist q collected
  if 0 < maxResults ∧ maxResults < (sorted.length : Int) then
    sorted.take maxResults.toNat
  else sorted

/-- `HashSearch::findSimilarWithLimit`: delegates to `findSimilarDynamic`. -/
def findSimilarWithLimit (cs : Rat) (grid : List Image) (q : Image) (t : Rat)
    (maxResults : Int) : List Image :=
  findSimilarDynamic cs grid q t maxResults

/-- `HashSearch::findSimilar` of `hash_search.h`: dynamic search with no
result limit (`-1`). -/
def hashDynFindSimilar (cs : Rat) (grid : List Image) (q : Image) (t : Rat) :
    List Image :=
  findSimilarDynamic cs grid q t (-1)

/-- Well-formed record: coordinates inside the RGB cube `[0,255]³`. -/
def wellFormed (img : Image) : Prop :=
  0 ≤ img.r ∧ img.r ≤ 255 ∧ 0 ≤ img.g ∧ img.g ≤ 255 ∧ 0 ≤ img.b ∧ img.b ≤ 255

/-- Sample record used to instantiate the hash-grid theorems. -/
def imgHashA : Image := ⟨1, "a.jpg", 10, 10, 10⟩

/-- Sample query record used to instantiate the hash-grid theorems. -/
def imgHashQ : Image := ⟨99, "q.jpg", 0, 0, 0⟩

/-- Record sitting in the cell at offset `(1,1,0)` from the query's cell
(cell size 1), used for the shell-duplication counterexample. -/
def imgShell : Image := ⟨3, "c3.jpg", 1, 1, 0⟩

/-- Query record for the shell-duplication counterexample. -/
def imgShellQ : Image := ⟨4, "q3.jpg", 0, 0, 0⟩

/-! ## Octree (`octree_search.h`) -/

/-- The RGB bounding box of an `OctreeNode`. -/
structure Box3 where
  minR : Rat
  maxR : Rat
  minG : Rat
  maxG : Rat
  minB : Rat
  maxB : Rat
deriving DecidableEq, Repr

def Box3.midR (b : Box3) : Rat := (b.minR + b.maxR) / 2
def Box3.midG (b : Box3) : Rat := (b.minG + b.maxG) / 2
def Box3.midB (b : Box3) : Rat := (b.minB + b.maxB) / 2

/-- A record lies inside a box (`OctreeNode::contains`). -/
def inBox3 (b : Box3) (img : Image) : Prop :=
  b.minR ≤ img.r ∧ img.r ≤ b.maxR ∧ b.minG ≤ img.g ∧ img.g ≤ b.maxG ∧
    b.minB ≤ img.b ∧ img.b ≤ b.maxB

/-- Per-axis bounds are ordered. -/
def Box3.ordered (b : Box3) : Prop :=
  b.minR ≤ b.maxR ∧ b.minG ≤ b.maxG ∧ b.minB ≤ b.maxB

/-- `OctreeNode::getChildIndex` (`octree_search.h`): bit 2 set when
`r >= midR` (`index |= 4`), bit 1 when `g >= midG` (`|= 2`), bit 0 when
`b >= midB` (`|= 1`). -/
def getChildIndexO (b : Box3) (img : Image) : Nat :=
  (if b.midR ≤ img.r then 4 else 0) + (if b.midG ≤ img.g then 2 else 0) +
    (if b.midB ≤ img.b then 1 else 0)

/-- The octant boxes allocated by `OctreeNode::createChildren`
(`octree_search.h`), in child-array order 0..7. -/
def childBoxO (b : Box3) (i : Nat) : Box3 :=
  if i = 0 then ⟨b.minR, b.midR, b.minG, b.midG, b.minB, b.midB⟩
  else if i = 1 then ⟨b.minR, b.midR, b.minG, b.midG, b.midB, b.maxB⟩
  else if i = 2 then ⟨b.minR, b.midR, b.midG, b.maxG, b.minB, b.midB⟩
  else if i = 3 then ⟨b.minR, b.midR, b.midG, b.maxG, b.midB, b.maxB⟩
  else if i = 4 then ⟨b.midR, b.maxR, b.minG, b.midG, b.minB, b.midB⟩
  else if i = 5 then ⟨b.midR, b.maxR, b.minG, b.midG, b.midB, b.maxB⟩
  else if i = 6 then ⟨b.midR, b.maxR, b.midG, b.maxG, b.minB, b.midB⟩
  else ⟨b.midR, b.maxR, b.midG, b.maxG, b.midB, b.maxB⟩

/-- An octree node: a leaf holding its record buffer, or an internal node
with 8 children (after `createChildren` all 8 children are live, and the
buffer of an internal node has been cleared). -/
inductive ONode where
  | leaf (box : Box3) (images : List Image)
  | node (box : Box3) (c0 c1 c2 c3 c4 c5 c6 c7 : ONode)
deriving DecidableEq, Repr

instance : Inhabited ONode := ⟨ONode.leaf ⟨0, 255, 0, 255, 0, 255⟩ []⟩

def ONode.box : ONode → Box3
  | .leaf b _ => b
  | .node b _ _ _ _ _ _ _ _ => b

/-- Child lookup (`node->children[i]`); junk value on a leaf. -/
def ONode.child : ONode → Nat → ONode
  | .leaf b imgs, _ => .leaf b imgs
  | .node _ c0 c1 c2 c3 c4 c5 c6 c7, i =>
    if i = 0 then c0 else if i = 1 then c1 else if i = 2 then c2
    else if i = 3 then c3 else if i = 4 then c4 else if i = 5 then c5
    else if i = 6 then c6 else c7

/-- Replace one child in an internal node. -/
def ONode.setChild : ONode → Nat → ONode → ONode
  | .leaf b imgs, _, _ => .leaf b imgs
  | .node b c0 c1 c2 c3 c4 c5 c6 c7, i, c =>
    if i = 0 then .node b c c1 c2 c3 c4 c5 c6 c7
    else if i = 1 then .node b c0 c c2 c3 c4 c5 c6 c7
    else if i = 2 then .node b c0 c1 c c3 c4 c5 c6 c7
    else if i = 3 then .node b c0 c1 c2 c c4 c5 c6 c7
    else if i = 4 then .node b c0 c1 c2 c3 c c5 c6 c7
    else if i = 5 then .node b c0 c1 c2 c3 c4 c c6 c7
    else if i = 6 then .node b c0 c1 c2 c3 c4 c5 c c7
    else .node b c0 c1 c2 c3 c4 c5 c6 c

/-- The fresh internal node allocated on subdivision: the parent's box with
8 empty leaf children on the octant boxes. -/
def splitNodeO (b : Box3) : ONode :=
  .node b (.leaf (childBoxO b 0) []) (.leaf (childBoxO b 1) [])
    (.leaf (childBoxO b 2) []) (.leaf (childBoxO b 3) [])
    (.leaf (childBoxO b 4) []) (.leaf (childBoxO b 5) [])
    (.leaf (childBoxO b 6) []) (.leaf (childBoxO b 7) [])

/-- `OctreeSearch::insertRecursive` (`octree_search.h`), with explicit fuel
bounding the recursion depth (the source has no depth ceiling: its
`maxDepth` member only records the maximum depth observed, so the recursion
is unbounded and the embedding returns `none` when the fuel runs out).  On a
leaf the record is appended; if the buffer now exceeds `thr`
(`maxImagesPerNode`) the node subdivides and re-inserts every buffered
record into the appropriate child; on an internal node it descends into the
child selected by `getChildIndex`. -/
def insertO (thr : Nat) : Nat → ONode → Image → Option ONode
  | 0, _, _ => none
  | fuel + 1, .leaf b imgs, img =>
    let imgs' := imgs ++ [img]
    if thr < imgs'.length then
      imgs'.foldl (fun acc x => acc.bind (fun n => insertO thr fuel n x))
        (some (splitNodeO b))
    else some (.leaf b imgs')
  | fuel + 1, .node b c0 c1 c2 c3 c4 c5 c6 c7, img =>
    let n := ONode.node b c0 c1 c2 c3 c4 c5 c6 c7
    let i := getChildIndexO b img
    (insertO thr fuel (n.child i) img).map (fun c => n.setChild i c)

/-- `if (v < lo) gap = lo - v else if (v > hi) gap = v - hi else 0`, squared:
one axis of `nodeIntersectsQueryRadius`. -/
def axisGapSq (v lo hi : Rat) : Rat :=
  if v < lo then (lo - v) * (lo - v) else if hi < v then (v - hi) * (v - hi) else 0

/-- The squared minimum distance from the query point to a node's box
(`OctreeSearch::nodeIntersectsQueryRadius`, before the square root). -/
def minDistSqO (b : Box3) (q : Image) : Rat :=
  axisGapSq q.r b.minR b.maxR + axisGapSq q.g b.minG b.maxG +
    axisGapSq q.b b.minB b.maxB

/-- `nodeIntersectsQueryRadius`: `sqrt(minDistSq) <= threshold`, embedded as
`0 ≤ threshold ∧ minDistSq ≤ threshold²` (no relaxation factor in
`octree_search.h`). -/
def octPrune (b : Box3) (q : Image) (t : Rat) : Bool :=
  decide (0 ≤ t ∧ minDistSqO b q ≤ t * t)

/-- `OctreeSearch::searchRecursive`: prune by box distance, filter a leaf's
buffer by true distance, or recurse into all children. -/
def searchO (q : Image) (t : Rat) : ONode → List Image
  | .leaf b imgs =>
    if octPrune b q t then imgs.filter (fun img => distLE q img t) else []
  | .node b c0 c1 c2 c3 c4 c5 c6 c7 =>
    if octPrune b q t then
      searchO q t c0 ++ searchO q t c1 ++ searchO q t c2 ++ searchO q t c3 ++
        searchO q t c4 ++ searchO q t c5 ++ searchO q t c6 ++ searchO q t c7
    else []

/-- All records stored in a (sub)tree, in traversal order. -/
def allImagesO : ONode → List Image
  | .leaf _ imgs => imgs
  | .node _ c0 c1 c2 c3 c4 c5 c6 c7 =>
    allImagesO c0 ++ allImagesO c1 ++ allImagesO c2 ++ allImagesO c3 ++
      allImagesO c4 ++ allImagesO c5 ++ allImagesO c6 ++ allImagesO c7

/-- The root box `[0,255]³` of `OctreeSearch`'s constructor. -/
def rootBoxO : Box3 := ⟨0, 255, 0, 255, 0, 255⟩

/-- A freshly constructed octree: one empty leaf over the full RGB cube. -/
def emptyOctree : ONode := ONode.leaf rootBoxO []

/-- Insert a dataset in order into a fresh octree (`OctreeSearch::insert`
repeatedly), with fuel. -/
def buildOctree (fuel thr : Nat) (imgs : List Image) : Option ONode :=
  imgs.foldl (fun acc img => acc.bind (fun n => insertO thr fuel n img))
    (some emptyOctree)

/-- `OctreeSearch::findSimilar`: recursive pruned search, then sort by
distance. -/
def octreeFindSimilar (t : ONode) (q : Image) (r : Rat) : List Image :=
  sortByDist q (searchO q r t)

/-- Structural well-formedness of an octree: boxes are ordered, a leaf's
records lie in its box, and an internal node's children carry exactly the
octant boxes of `createChildren`. -/
def WFO : ONode → Prop
  | .leaf b imgs => Box3.ordered b ∧ ∀ img ∈ imgs, inBox3 b img
  | .node b c0 c1 c2 c3 c4 c5 c6 c7 =>
    Box3.ordered b ∧
    (c0.box = childBoxO b 0 ∧ WFO c0) ∧ (c1.box = childBoxO b 1 ∧ WFO c1) ∧
    (c2.box = childBoxO b 2 ∧ WFO c2) ∧ (c3.box = childBoxO b 3 ∧ WFO c3) ∧
    (c4.box = childBoxO b 4 ∧ WFO c4) ∧ (c5.box = childBoxO b 5 ∧ WFO c5) ∧
    (c6.box = childBoxO b 6 ∧ WFO c6) ∧ (c7.box = childBoxO b 7 ∧ WFO c7)

/-- Record at the origin used to show the unbounded octree recursion. -/
def imgOctDup : Image := ⟨6, "dup.jpg", 0, 0, 0⟩

/-! ## Quadtree (`quadtree.h`) -/

/-- The 2D (R,G) bounding rectangle of a `QuadtreeNode`. -/
structure Box2 where
  minR : Rat
  maxR : Rat
  minG : Rat
  maxG : Rat
deriving DecidableEq, Repr

def Box2.midR (b : Box2) : Rat := (b.minR + b.maxR) / 2
def Box2.midG (b : Box2) : Rat := (b.minG + b.maxG) / 2

/-- `QuadtreeNode::contains` — only the structured axes R and G. -/
def inBox2 (b : Box2) (img : Image) : Prop :=
  b.minR ≤ img.r ∧ img.r ≤ b.maxR ∧ b.minG ≤ img.g ∧ img.g ≤ b.maxG

def Box2.ordered (b : Box2) : Prop := b.minR ≤ b.maxR ∧ b.minG ≤ b.maxG

/-- `QuadtreeNode::getChildIndex`: bit 1 = r ≥ midR, bit 0 = g ≥ midG. -/
def getChildIndexQ (b : Box2) (img : Image) : Nat :=
  (if b.midR ≤ img.r then 2 else 0) + (if b.midG ≤ img.g then 1 else 0)

/-- The quadrant rectangles of `QuadtreeNode::createChildren`, in child
order 0..3. -/
def childBoxQ (b : Box2) (i : Nat) : Box2 :=
  if i = 0 then ⟨b.minR, b.midR, b.minG, b.midG⟩
  else if i = 1 then ⟨b.minR, b.midR, b.midG, b.maxG⟩
  else if i = 2 then ⟨b.midR, b.maxR, b.minG, b.midG⟩
  else ⟨b.midR, b.maxR, b.midG, b.maxG⟩

/-- A quadtree node: leaf with record buffer, or internal node with exactly
4 live children. -/
inductive QNode where
  | leaf (box : Box2) (images : List Image)
  | node (box : Box2) (c0 c1 c2 c3 : QNode)
deriving DecidableEq, Repr

def QNode.box : QNode → Box2
  | .leaf b _ => b
  | .node b _ _ _ _ => b

def QNode.child : QNode → Nat → QNode
  | .leaf b imgs, _ => .leaf b imgs
  | .node _ c0 c1 c2 c3, i =>
    if i = 0 then c0 else if i = 1 then c1 else if i = 2 then c2 else c3

def QNode.setChild : QNode → Nat → QNode → QNode
  | .leaf b imgs, _, _ => .leaf b imgs
  | .node b c0 c1 c2 c3, i, c =>
    if i = 0 then .node b c c1 c2 c3
    else if i = 1 then .node b c0 c c2 c3
    else if i = 2 then .node b c0 c1 c c3
    else .node b c0 c1 c2 c

/-- Follow a child-index path from a node (a stable stand-in for the C++
node pointers held on the explicit stack: child nodes are never moved or
freed while `insertIntoChild` runs). -/
def lookupQ : List Nat → QNode → Option QNode
  | [], n => some n
  | _ :: _, .leaf _ _ => none
  | i :: p, .node b c0 c1 c2 c3 =>
    lookupQ p ((QNode.node b c0 c1 c2 c3).child i)

/-- Replace the subtree at a path. -/
def updateQ : List Nat → QNode → QNode → QNode
  | [], _, m => m
  | _ :: _, .leaf b imgs, _ => .leaf b imgs
  | i :: p, .node b c0 c1 c2 c3, m =>
    (QNode.node b c0 c1 c2 c3).setChild i
      (updateQ p ((QNode.node b c0 c1 c2 c3).child i) m)

/-- The fresh internal node of `QuadtreeNode::createChildren`. -/
def splitNodeQ (b : Box2) : QNode :=
  .node b (.leaf (childBoxQ b 0) []) (.leaf (childBoxQ b 1) [])
    (.leaf (childBoxQ b 2) []) (.leaf (childBoxQ b 3) [])

/-- `node->children[i]->images.push_back(x)` — the direct insertion into a
(freshly created, hence leaf) child during redistribution. -/
def appendAtChild (n : QNode) (i : Nat) (x : Image) : QNode :=
  n.setChild i
    (match n.child i with
     | .leaf b li => .leaf b (li ++ [x])
     | m => m)

/-- `QuadtreeIterativeSearch::insertIntoChild` (`quadtree.h`): the explicit
stack loop.  Each stack entry is a node (as a path from the subtree root
`t`) plus its depth.  On a popped leaf the parameter record `img` is
appended; if the buffer then exceeds `thr` and `depth < 10`, the leaf
subdivides and every buffered record is pushed directly into the child
selected by its own index, while a stack entry for that child is ALSO
pushed — the source does both, which re-inserts `img` again when those
entries are popped.  On a popped internal node the child selected by
`img`'s index is pushed.  Fuel bounds the number of loop iterations. -/
def insertIntoChildLoop (thr : Nat) (img : Image) :
    Nat → QNode → List (List Nat × Nat) → Option QNode
  | 0, _, _ => none
  | _ + 1, t, [] => some t
  | fuel + 1, t, (p, d) :: rest =>
    match lookupQ p t with
    | none => none
    | some (.leaf b imgs) =>
      let imgs' := imgs ++ [img]
      if thr < imgs'.length ∧ d < 10 then
        let redistributed :=
          imgs'.foldl (fun acc x => appendAtChild acc (getChildIndexQ b x) x)
            (splitNodeQ b)
        let newEntries :=
          imgs'.foldl (fun acc x => (p ++ [getChildIndexQ b x], d + 1) :: acc)
            ([] : List (List Nat × Nat))
        insertIntoChildLoop thr img fuel (updateQ p t redistributed)
          (newEntries ++ rest)
      else
        insertIntoChildLoop thr img fuel (updateQ p t (.leaf b imgs')) rest
    | some (.node b _ _ _ _) =>
      insertIntoChildLoop thr img fuel t ((p ++ [getChildIndexQ b img], d + 1) :: rest)

/-- `QuadtreeIterativeSearch::insertIterative` (`quadtree.h`): descend while
internal; at the leaf append the record; when the buffer exceeds `thr` and
`depth < 10`, subdivide and re-insert every buffered record via
`insertIntoChild` on the child selected by that record's index. -/
def insertQtop (thr fuel : Nat) : QNode → Image → Nat → Option QNode
  | .leaf b imgs, img, depth =>
    let imgs' := imgs ++ [img]
    if thr < imgs'.length ∧ depth < 10 then
      imgs'.foldl
        (fun acc x => acc.bind (fun n =>
          insertIntoChildLoop thr x fuel n [([getChildIndexQ b x], depth + 1)]))
        (some (splitNodeQ b))
    else some (.leaf b imgs')
  | .node b c0 c1 c2 c3, img, depth =>
    let i := getChildIndexQ b img
    if i = 0 then
      (insertQtop thr fuel c0 img (depth + 1)).map (fun c => QNode.node b c c1 c2 c3)
    else if i = 1 then
      (insertQtop thr fuel c1 img (depth + 1)).map (fun c => QNode.node b c0 c c2 c3)
    else if i = 2 then
      (insertQtop thr fuel c2 img (depth + 1)).map (fun c => QNode.node b c0 c1 c c3)
    else
      (insertQtop thr fuel c3 img (depth + 1)).map (fun c => QNode.node b c0 c1 c2 c)

/-- The root rectangle `[0,255]²` of `QuadtreeIterativeSearch`. -/
def rootBoxQ : Box2 := ⟨0, 255, 0, 255⟩

def emptyQuadtree : QNode := QNode.leaf rootBoxQ []

/-- Insert a dataset in order into a fresh quadtree. -/
def buildQuadtree (fuel thr : Nat) (imgs : List Image) : Option QNode :=
  imgs.foldl (fun acc img => acc.bind (fun n => insertQtop thr fuel n img 0))
    (some emptyQuadtree)

/-- The 2-axis squared minimum box distance of
`QuadtreeIterativeSearch::nodeIntersectsQueryRadius` (B is ignored). -/
def minDistSqQ (b : Box2) (q : Image) : Rat :=
  axisGapSq q.r b.minR b.maxR + axisGapSq q.g b.minG b.maxG

/-- `nodeIntersectsQueryRadius` for the quadtree: `sqrt(minDistSq) <=
threshold` over the two structured axes. -/
def quadPrune (b : Box2) (q : Image) (t : Rat) : Bool :=
  decide (0 ≤ t ∧ minDistSqQ b q ≤ t * t)

def QNode.size : QNode → Nat
  | .leaf _ _ => 1
  | .node _ c0 c1 c2 c3 => 1 + c0.size + c1.size + c2.size + c3.size

/-- `QuadtreeIterativeSearch::searchIterative`: breadth-first traversal with
a FIFO queue, pruning on the 2-axis box distance, filtering leaf buffers by
the full 3-axis distance. -/
def searchQLoop (q : Image) (t : Rat) : List QNode → List Image
  | [] => []
  | QNode.leaf b imgs :: rest =>
    if quadPrune b q t then
      imgs.filter (fun img => distLE q img t) ++ searchQLoop q t rest
    else searchQLoop q t rest
  | QNode.node b c0 c1 c2 c3 :: rest =>
    if quadPrune b q t then searchQLoop q t (rest ++ [c0, c1, c2, c3])
    else searchQLoop q t rest
termination_by queue => (queue.map QNode.size).sum
decreasing_by
  · simp only [List.map_cons, List.sum_cons, QNode.size]
    omega
  · simp only [List.map_cons, List.sum_cons, QNode.size]
    omega
  · simp only [List.map_cons, List.sum_cons, List.map_append, List.sum_append,
      QNode.size, List.map_nil, List.sum_nil]
    omega
  · simp only [List.map_cons, List.sum_cons, QNode.size]
    omega

/-- `QuadtreeIterativeSearch::findSimilar`: BFS search from the root, then
sort ascending by distance. -/
def quadtreeFindSimilar (t : QNode) (q : Image) (r : Rat) : List Image :=
  sortByDist q (searchQLoop q r [t])

/-- All records stored in a quadtree, in traversal order. -/
def allImagesQ : QNode → List Image
  | .leaf _ imgs => imgs
  | .node _ c0 c1 c2 c3 =>
    allImagesQ c0 ++ allImagesQ c1 ++ allImagesQ c2 ++ allImagesQ c3

/-- Shape invariant of a quadtree: ordered boxes and children carrying
exactly the quadrant boxes of `createChildren`. -/
def ShapeQ : QNode → Prop
  | .leaf b _ => b.ordered
  | .node b c0 c1 c2 c3 =>
    b.ordered ∧
    (c0.box = childBoxQ b 0 ∧ ShapeQ c0) ∧ (c1.box = childBoxQ b 1 ∧ ShapeQ c1) ∧
    (c2.box = childBoxQ b 2 ∧ ShapeQ c2) ∧ (c3.box = childBoxQ b 3 ∧ ShapeQ c3)

/-- A good placement of a record: a leaf that stores it, reachable along a
chain of nodes whose rectangles all contain the record. -/
inductive GoodAt (x : Image) : QNode → Prop
  | leaf (b : Box2) (imgs : List Image) : inBox2 b x → x ∈ imgs →
      GoodAt x (QNode.leaf b imgs)
  | node (b : Box2) (c0 c1 c2 c3 : QNode) (i : Nat) : i < 4 → inBox2 b x →
      GoodAt x ((QNode.node b c0 c1 c2 c3).child i) →
      GoodAt x (QNode.node b c0 c1 c2 c3)

/-- A valid path for a record: the lookup succeeds and every box along the
path (including the endpoint) contains the record. -/
def PathOk (x : Image) : List Nat → QNode → Prop
  | [], n => inBox2 n.box x
  | _ :: _, .leaf _ _ => False
  | i :: p, .node b c0 c1 c2 c3 =>
    inBox2 b x ∧ i < 4 ∧ PathOk x p ((QNode.node b c0 c1 c2 c3).child i)

/-- Paths whose entries are genuine child indices. -/
def ValidPath (p : List Nat) : Prop := ∀ k ∈ p, k < 4

def QNode.isNodeB : QNode → Bool
  | .leaf _ _ => false
  | .node _ _ _ _ _ => true

/-- The redistribution fold of the split branch: every buffered record is
pushed directly into the child selected by its own index. -/
def redistributeQ (b : Box2) (l : List Image) : QNode :=
  l.foldl (fun acc x => appendAtChild acc (getChildIndexQ b x) x) (splitNodeQ b)

/-- Two records whose shared quadrant forces the (buggy) iterative split
cascade: the second record ends up copied into leaves whose rectangles do
not contain it. -/
def imgA7 : Image := ⟨21, "a7.jpg", 0, 0, 0⟩

def imgC7 : Image := ⟨22, "c7.jpg", 10, 0, 0⟩

def imgW7 : Image := ⟨23, "w7.jpg", 5, 5, 5⟩

/-- Two records in the same quadrant, inserted with split threshold 1 to
force a subdivision cascade. -/
def imgQD1 : Image := ⟨11, "qd1.jpg", 0, 0, 0⟩

def imgQD2 : Image := ⟨12, "qd2.jpg", 0, 0, 0⟩

/-- A fuel-indexed copy of `searchQLoop`, used to evaluate the breadth-first
search on concrete inputs (each loop iteration consumes one unit of fuel). -/
def searchQFuel (q : Image) (t : Rat) : Nat → List QNode → List Image
  | _, [] => []
  | 0, _ :: _ => []
  | fuel + 1, QNode.leaf b imgs :: rest =>
    if quadPrune b q t then
      imgs.filter (fun img => distLE q img t) ++ searchQFuel q t fuel rest
    else searchQFuel q t fuel rest
  | fuel + 1, QNode.node b c0 c1 c2 c3 :: rest =>
    if quadPrune b q t then searchQFuel q t fuel (rest ++ [c0, c1, c2, c3])
    else searchQFuel q t fuel rest

/-! ## Scalable-benchmark octree variant (part_001 `OctreeNode`) -/

/-- `OctreeNode::getChildIndex` of the scalable benchmark (part_001):
bit 0 = r ≥ midR, bit 1 = g ≥ midG, bit 2 = b ≥ midB. -/
def getChildIndexSB (b : Box3) (img : Image) : Nat :=
  (if b.midR ≤ img.r then 1 else 0) + (if b.midG ≤ img.g then 2 else 0) +
    (if b.midB ≤ img.b then 4 else 0)

/-- `OctreeNode::createChildren` of the scalable benchmark (part_001): the
constructor argument order is (minR, maxR, minG, maxG, minB, maxB), and
children 2, 3, 6, 7 are passed `maxR, maxG` in the G slots. -/
def childBoxSB (b : Box3) (i : Nat) : Box3 :=
  if i = 0 then ⟨b.minR, b.midR, b.minG, b.midG, b.minB, b.midB⟩
  else if i = 1 then ⟨b.midR, b.maxR, b.minG, b.midG, b.minB, b.midB⟩
  else if i = 2 then ⟨b.minR, b.midR, b.maxR, b.maxG, b.minB, b.midB⟩
  else if i = 3 then ⟨b.midR, b.maxR, b.maxR, b.maxG, b.minB, b.midB⟩
  else if i = 4 then ⟨b.minR, b.midR, b.minG, b.midG, b.midB, b.maxB⟩
  else if i = 5 then ⟨b.midR, b.maxR, b.minG, b.midG, b.midB, b.maxB⟩
  else if i = 6 then ⟨b.minR, b.midR, b.maxR, b.maxG, b.midB, b.maxB⟩
  else ⟨b.midR, b.maxR, b.maxR, b.maxG, b.midB, b.maxB⟩

/-- A record inside the root cube whose selected part_001 child box does not
contain it. -/
def imgC6 : Image := ⟨31, "c6.jpg", 0, 200, 0⟩

def imgW6 : Image := ⟨32, "w6.jpg", 100, 100, 100⟩

/-- The internal node allocated by part_001's `createChildren`, with its
(buggy) child boxes. -/
def splitNodeSB (b : Box3) : ONode :=
  .node b (.leaf (childBoxSB b 0) []) (.leaf (childBoxSB b 1) [])
    (.leaf (childBoxSB b 2) []) (.leaf (childBoxSB b 3) [])
    (.leaf (childBoxSB b 4) []) (.leaf (childBoxSB b 5) [])
    (.leaf (childBoxSB b 6) []) (.leaf (childBoxSB b 7) [])

/-- part_001 `OctreeSearch::insertRecursive`: append at the leaf; when the
buffer exceeds `thr` (`maxImagesPerNode` = 20) and `depth < 15`, subdivide
and re-insert every buffered record into the child selected by its index.
Fuel bounds the recursion depth. -/
def insertSB (thr : Nat) : Nat → ONode → Image → Nat → Option ONode
  | 0, _, _, _ => none
  | fuel + 1, .leaf b imgs, img, depth =>
    let imgs' := imgs ++ [img]
    if thr < imgs'.length ∧ depth < 15 then
      imgs'.foldl (fun acc x => acc.bind (fun n => insertSB thr fuel n x (depth + 1)))
        (some (splitNodeSB b))
    else some (.leaf b imgs')
  | fuel + 1, .node b c0 c1 c2 c3 c4 c5 c6 c7, img, depth =>
    let i := getChildIndexSB b img
    (insertSB thr fuel ((ONode.node b c0 c1 c2 c3 c4 c5 c6 c7).child i) img
        (depth + 1)).map
      (fun c => (ONode.node b c0 c1 c2 c3 c4 c5 c6 c7).setChild i c)

/-- part_001 `OctreeSearch::searchRecursive`: no pruning — every node is
visited; leaf buffers are filtered by the inclusive distance test.  The
caller `findSimilar` returns this list WITHOUT sorting it. -/
def searchSB (q : Image) (t : Rat) : ONode → List Image
  | .leaf _ imgs => imgs.filter (fun img => distLE q img t)
  | .node _ c0 c1 c2 c3 c4 c5 c6 c7 =>
    searchSB q t c0 ++ searchSB q t c1 ++ searchSB q t c2 ++ searchSB q t c3 ++
      searchSB q t c4 ++ searchSB q t c5 ++ searchSB q t c6 ++ searchSB q t c7

/-- Insert a dataset in order into part_001's octree (threshold 20). -/
def buildSB (fuel : Nat) (imgs : List Image) : Option ONode :=
  imgs.foldl (fun acc img => acc.bind (fun n => insertSB 20 fuel n img 0))
    (some (ONode.leaf rootBoxO []))

/-- part_001 `OctreeSearch::findSimilar`: the traversal result, unsorted. -/
def findSimilarSB (t : ONode) (q : Image) (r : Rat) : List Image :=
  searchSB q r t

/-- A far record inserted before a near one, to exhibit the unsorted result
of part_001's octree query. -/
def imgFar8 : Image := ⟨41, "f8.jpg", 50, 0, 0⟩

def imgNear8 : Image := ⟨42, "n8.jpg", 1, 0, 0⟩

def imgQ8 : Image := ⟨43, "q8.jpg", 0, 0, 0⟩

def imgW8 : Image := ⟨44, "w8.jpg", 7, 7, 7⟩

theorem insertByDist_perm (q x : Image) (l : List Image) :
    List.Perm (insertByDist q x l) (x :: l) := by
  induction l with
  | nil => simp [insertByDist]
  | cons y ys ih =>
    simp only [insertByDist]
    split
    · exact List.Perm.refl _
    · exact ((ih.cons y).trans (List.Perm.swap x y ys))

theorem sortByDist_perm (q : Image) (l : List Image) :
    List.Perm (sortByDist q l) l := by
  induction l with
  | nil => simp [sortByDist]
  | cons x xs ih =>
    exact (insertByDist_perm q x (sortByDist q xs)).trans (ih.cons x)

theorem mem_sortByDist (q x : Image) (l : List Image) :
    x ∈ sortByDist q l ↔ x ∈ l :=
  (sortByDist_perm q l).mem_iff

theorem insertByDist_sorted (q x : Image) (l : List Image)
    (h : SortedByDist q l) : SortedByDist q (insertByDist q x l) := by
  induction l with
  | nil => simp [insertByDist, SortedByDist]
  | cons y ys ih =>
    simp only [insertByDist]
    split
    · rename_i hxy
      refine List.chain'_cons.2 ⟨?_, h⟩
      simpa [distLEcmp] using hxy
    · rename_i hxy
      have hyx : sqDist q y ≤ sqDist q x := by
        have := not_le.1 (by simpa [distLEcmp] using hxy)
        exact le_of_lt this
      have hys : SortedByDist q ys := (List.chain'_cons'.1 h).2
      have hrec := ih hys
      refine List.chain'_cons'.2 ⟨?_, hrec⟩
      intro z hz
      cases ys with
      | nil =>
        simp [insertByDist] at hz
        subst hz; exact hyx
      | cons w ws =>
        simp only [insertByDist] at hz
        by_cases hxw : distLEcmp q x w = true
        · simp [hxw] at hz
          subst hz; exact hyx
        · simp [hxw] at hz
          subst hz
          exact (List.chain'_cons.1 h).1

theorem sortByDist_sorted (q : Image) (l : List Image) :
    SortedByDist q (sortByDist q l) := by
  induction l with
  | nil => simp [sortByDist, SortedByDist]
  | cons x xs ih => exact insertByDist_sorted q x _ ih

theorem sortByDist_count (q x : Image) (l : List Image) :
    (sortByDist q l).count x = l.count x :=
  (sortByDist_perm q l).count_eq x

theorem mem_linearFindSimilar (images : List Image) (q x : Image) (t : Rat) :
    x ∈ linearFindSimilar images q t ↔ x ∈ images ∧ distLE q x t = true := by
  rw [linearFindSimilar, mem_sortByDist, linearCollect, List.mem_filter]

theorem mem_intRange (lo hi x : Int) :
    x ∈ intRange lo hi ↔ lo ≤ x ∧ x ≤ hi := by
  rw [intRange, List.mem_map]
  constructor
  · rintro ⟨k, hk, rfl⟩
    rw [List.mem_range] at hk
    exact ⟨by omega, by omega⟩
  · rintro ⟨h1, h2⟩
    refine ⟨(x - lo).toNat, ?_, by omega⟩
    rw [List.mem_range]
    omega

/-! ## Arithmetic facts about cells and distances -/

theorem floor_add_le_floor_add_ceil (u v : Rat) : ⌊u + v⌋ ≤ ⌊u⌋ + ⌈v⌉ := by
  have h1 := Int.lt_floor_add_one u
  have h2 := Int.le_ceil v
  have h : u + v < (⌊u⌋ + ⌈v⌉ : Int) + 1 := by push_cast; linarith
  exact Int.lt_add_one_iff.mp (Int.floor_lt.mpr (by exact_mod_cast h))

theorem truncQ_eq_floor (x : Rat) (hx : 0 ≤ x) : truncQ x = ⌊x⌋ := by
  simp [truncQ, hx]

theorem abs_sub_le_of_sq_le_sq (a b t : Rat) (ht : 0 ≤ t)
    (h : (a - b) * (a - b) ≤ t * t) : a - b ≤ t ∧ b - a ≤ t := by
  constructor
  · nlinarith
  · nlinarith

/-- Records whose floor cells differ by more than `ceil(t/cs)` on an axis are
farther than `t` apart on that axis: the cube radius is large enough. -/
theorem cell_offset_bound (cs va vb t : Rat) (hcs : 0 < cs)
    (ha : 0 ≤ va) (hb : 0 ≤ vb) (ht : 0 ≤ t)
    (h : (va - vb) * (va - vb) ≤ t * t) :
    rgbToCell cs vb - ⌈t / cs⌉ ≤ rgbToCell cs va ∧
      rgbToCell cs va ≤ rgbToCell cs vb + ⌈t / cs⌉ := by
  have hdiv : (0 : Rat) ≤ va / cs := div_nonneg ha hcs.le
  have hdiv' : (0 : Rat) ≤ vb / cs := div_nonneg hb hcs.le
  have habs := abs_sub_le_of_sq_le_sq va vb t ht h
  rw [rgbToCell, rgbToCell, truncQ_eq_floor _ hdiv, truncQ_eq_floor _ hdiv']
  constructor
  · have hle : vb / cs ≤ va / cs + t / cs := by
      rw [div_add_div_same]
      exact (div_le_div_iff_of_pos_right hcs).mpr (by linarith [habs.2])
    have := (Int.floor_le_floor hle).trans (floor_add_le_floor_add_ceil (va / cs) (t / cs))
    omega
  · have hle : va / cs ≤ vb / cs + t / cs := by
      rw [div_add_div_same]
      exact (div_le_div_iff_of_pos_right hcs).mpr (by linarith [habs.1])
    have := (Int.floor_le_floor hle).trans (floor_add_le_floor_add_ceil (vb / cs) (t / cs))
    omega

theorem sqDist_axis_bounds (q x : Image) (t : Rat) (h : sqDist q x ≤ t * t) :
    (q.r - x.r) * (q.r - x.r) ≤ t * t ∧
      (q.g - x.g) * (q.g - x.g) ≤ t * t ∧
      (q.b - x.b) * (q.b - x.b) ≤ t * t := by
  rw [sqDist] at h
  refine ⟨?_, ?_, ?_⟩ <;> nlinarith [sq_nonneg (q.r - x.r), sq_nonneg (q.g - x.g), sq_nonneg (q.b - x.b)]

theorem mem_searchSingleCell (cs : Rat) (grid : List Image) (c : Int × Int × Int)
    (q x : Image) (t : Rat) :
    x ∈ searchSingleCell cs grid c q t ↔
      x ∈ grid ∧ cellKey cs x = c ∧ distLE q x t = true := by
  simp only [searchSingleCell, bucket, List.mem_filter, decide_eq_true_eq]
  tauto

theorem mem_hashCubeCollect (cs : Rat) (grid : List Image) (q x : Image) (t : Rat) :
    x ∈ hashCubeCollect cs grid q t ↔
      ∃ dr dg db : Int,
        (-⌈t / cs⌉ ≤ dr ∧ dr ≤ ⌈t / cs⌉) ∧ (-⌈t / cs⌉ ≤ dg ∧ dg ≤ ⌈t / cs⌉) ∧
        (-⌈t / cs⌉ ≤ db ∧ db ≤ ⌈t / cs⌉) ∧
        x ∈ searchSingleCell cs grid
          ((cellKey cs q).1 + dr, (cellKey cs q).2.1 + dg, (cellKey cs q).2.2 + db) q t := by
  simp only [hashCubeCollect, List.mem_flatMap, mem_intRange]
  constructor
  · rintro ⟨dr, hdr, dg, hdg, db, hdb, hx⟩
    exact ⟨dr, dg, db, hdr, hdg, hdb, hx⟩
  · rintro ⟨dr, dg, db, hdr, hdg, hdb, hx⟩
    exact ⟨dr, hdr, dg, hdg, db, hdb, hx⟩

/-- C5 core, completeness direction: the cube of cell radius
`ceil(threshold/cellSize)` reaches the cell of every matching record. -/
theorem hashCubeCollect_complete (cs : Rat) (grid : List Image) (q x : Image)
    (t : Rat) (hcs : 0 < cs) (hq : 0 ≤ q.r ∧ 0 ≤ q.g ∧ 0 ≤ q.b)
    (hx : 0 ≤ x.r ∧ 0 ≤ x.g ∧ 0 ≤ x.b)
    (hmem : x ∈ grid) (hdist : distLE q x t = true) :
    x ∈ hashCubeCollect cs grid q t := by
  have hd : 0 ≤ t ∧ sqDist q x ≤ t * t := by
    simpa [distLE] using hdist
  obtain ⟨ht, hsq⟩ := hd
  obtain ⟨hr, hg, hb⟩ := sqDist_axis_bounds q x t hsq
  have hrx : (x.r - q.r) * (x.r - q.r) ≤ t * t := by nlinarith
  have hgx : (x.g - q.g) * (x.g - q.g) ≤ t * t := by nlinarith
  have hbx : (x.b - q.b) * (x.b - q.b) ≤ t * t := by nlinarith
  have cr := cell_offset_bound cs x.r q.r t hcs hx.1 hq.1 ht hrx
  have cg := cell_offset_bound cs x.g q.g t hcs hx.2.1 hq.2.1 ht hgx
  have cb := cell_offset_bound cs x.b q.b t hcs hx.2.2 hq.2.2 ht hbx
  rw [mem_hashCubeCollect]
  refine ⟨rgbToCell cs x.r - (cellKey cs q).1, rgbToCell cs x.g - (cellKey cs q).2.1,
    rgbToCell cs x.b - (cellKey cs q).2.2, ?_, ?_, ?_, ?_⟩
  · simp only [cellKey]
    omega
  · simp only [cellKey]
    omega
  · simp only [cellKey]
    omega
  · rw [mem_searchSingleCell]
    refine ⟨hmem, ?_, hdist⟩
    simp only [cellKey, Prod.mk.injEq]
    refine ⟨by omega, by omega, by omega⟩

theorem hashCubeCollect_sound (cs : Rat) (grid : List Image) (q x : Image)
    (t : Rat) (h : x ∈ hashCubeCollect cs grid q t) :
    x ∈ grid ∧ distLE q x t = true := by
  rw [mem_hashCubeCollect] at h
  obtain ⟨dr, dg, db, _, _, _, hx⟩ := h
  rw [mem_searchSingleCell] at hx
  exact ⟨hx.1, hx.2.2⟩

/-- C5: with `cellRadius = ceil(threshold/cellSize)`, the full-cube
enumeration of the spatial hash grid has no false negatives: for every
dataset of well-formed records, every well-formed query point and every
threshold ≥ 0, and every cell size > 0, the query returns exactly the set of
stored records at Euclidean distance ≤ threshold — the same set as the
linear brute-force scan. -/
theorem hash_cube_no_false_negatives (cs : Rat) (grid : List Image) (q : Image)
    (t : Rat) (hcs : 0 < cs) (_ht : 0 ≤ t)
    (hwf : ∀ img ∈ grid, wellFormed img) (hq : wellFormed q) :
    ∀ x, x ∈ hashFindSimilar cs grid q t ↔ x ∈ linearFindSimilar grid q t := by
  intro x
  rw [mem_linearFindSimilar, hashFindSimilar, mem_sortByDist]
  constructor
  · exact fun h => hashCubeCollect_sound cs grid q x t h
  · rintro ⟨hmem, hdist⟩
    have hx := hwf x hmem
    exact hashCubeCollect_complete cs grid q x t hcs
      ⟨hq.1, hq.2.2.1, hq.2.2.2.2.1⟩ ⟨hx.1, hx.2.2.1, hx.2.2.2.2.1⟩ hmem hdist

theorem hash_cube_no_false_negatives_witness :
    (0 : Rat) < 30 ∧ (0 : Rat) ≤ 20 ∧ (∀ img ∈ [imgHashA], wellFormed img) ∧
      wellFormed imgHashQ ∧
      (imgHashA ∈ hashFindSimilar 30 [imgHashA] imgHashQ 20 ↔
        imgHashA ∈ linearFindSimilar [imgHashA] imgHashQ 20) := by
  refine ⟨by norm_num, by norm_num, ?_, ?_, ?_⟩
  · intro img h
    simp only [List.mem_singleton] at h
    subst h
    refine ⟨by norm_num [imgHashA], by norm_num [imgHashA], by norm_num [imgHashA],
      by norm_num [imgHashA], by norm_num [imgHashA], by norm_num [imgHashA]⟩
  · refine ⟨by norm_num [imgHashQ], by norm_num [imgHashQ], by norm_num [imgHashQ],
      by norm_num [imgHashQ], by norm_num [imgHashQ], by norm_num [imgHashQ]⟩
  · refine hash_cube_no_false_negatives 30 [imgHashA] imgHashQ 20 (by norm_num)
      (by norm_num) ?_ ?_ imgHashA
    · intro img h
      simp only [List.mem_singleton] at h
      subst h
      refine ⟨by norm_num [imgHashA], by norm_num [imgHashA], by norm_num [imgHashA],
        by norm_num [imgHashA], by norm_num [imgHashA], by norm_num [imgHashA]⟩
    · refine ⟨by norm_num [imgHashQ], by norm_num [imgHashQ], by norm_num [imgHashQ],
        by norm_num [imgHashQ], by norm_num [imgHashQ], by norm_num [imgHashQ]⟩

/-! ## Properties of the adaptive (dynamic) hash search -/

theorem dynGo_sound (cs : Rat) (grid : List Image) (qc : Int × Int × Int)
    (q : Image) (t : Rat) (maxResults : Int) (radii : List Int)
    (acc : List Image) (x : Image) (h : x ∈ dynGo cs grid qc q t maxResults radii acc) :
    x ∈ acc ∨ ∃ r ∈ radii, x ∈ searchCubeAtRadius cs grid qc r q t := by
  induction radii generalizing acc with
  | nil =>
    rw [dynGo] at h
    exact Or.inl h
  | cons r rest ih =>
    rw [dynGo] at h
    split at h
    · rcases List.mem_append.1 h with h' | h'
      · exact Or.inl h'
      · exact Or.inr ⟨r, List.mem_cons_self r rest, h'⟩
    · rcases ih _ h with h' | ⟨r', hr', hx'⟩
      · rcases List.mem_append.1 h' with h'' | h''
        · exact Or.inl h''
        · exact Or.inr ⟨r, List.mem_cons_self r rest, h''⟩
      · exact Or.inr ⟨r', List.mem_cons_of_mem r hr', hx'⟩

theorem searchCubeAtRadius_sound (cs : Rat) (grid : List Image)
    (qc : Int × Int × Int) (radius : Int) (q : Image) (t : Rat) (x : Image)
    (h : x ∈ searchCubeAtRadius cs grid qc radius q t) :
    x ∈ grid ∧ distLE q x t = true := by
  rw [searchCubeAtRadius] at h
  split at h
  · rw [mem_searchSingleCell] at h
    exact ⟨h.1, h.2.2⟩
  · simp only [List.mem_flatMap] at h
    obtain ⟨dr, _, dg, _, db, _, h⟩ := h
    split at h
    · rw [mem_searchSingleCell] at h
      exact ⟨h.1, h.2.2⟩
    · simp at h

theorem dynGo_no_limit (cs : Rat) (grid : List Image) (qc : Int × Int × Int)
    (q : Image) (t : Rat) (maxResults : Int) (hm : maxResults ≤ 0)
    (radii : List Int) (acc : List Image) :
    dynGo cs grid qc q t maxResults radii acc =
      acc ++ radii.flatMap (fun r => searchCubeAtRadius cs grid qc r q t) := by
  induction radii generalizing acc with
  | nil => simp [dynGo]
  | cons r rest ih =>
    rw [dynGo]
    have hcond : ¬ (0 < maxResults ∧
        maxResults ≤ ((acc ++ searchCubeAtRadius cs grid qc r q t).length : Int)) := by
      rintro ⟨h1, _⟩; omega
    rw [if_neg hcond, ih]
    simp

/-- The expanding shells of `findSimilarDynamic` reach the cell of every
matching record: the shell at the Chebyshev distance of the record's cell
passes the boundary test, and that distance is at most
`ceil(threshold/cellSize)`. -/
theorem dynShells_complete (cs : Rat) (grid : List Image) (q x : Image) (t : Rat)
    (hcs : 0 < cs) (hq : 0 ≤ q.r ∧ 0 ≤ q.g ∧ 0 ≤ q.b)
    (hx : 0 ≤ x.r ∧ 0 ≤ x.g ∧ 0 ≤ x.b)
    (hmem : x ∈ grid) (hdist : distLE q x t = true) :
    ∃ r ∈ intRange 0 ⌈t / cs⌉, x ∈ searchCubeAtRadius cs grid (cellKey cs q) r q t := by
  obtain ⟨ht, hsq⟩ : 0 ≤ t ∧ sqDist q x ≤ t * t := by simpa [distLE] using hdist
  obtain ⟨hr, hg, hb⟩ := sqDist_axis_bounds q x t hsq
  have hrx : (x.r - q.r) * (x.r - q.r) ≤ t * t := by nlinarith
  have hgx : (x.g - q.g) * (x.g - q.g) ≤ t * t := by nlinarith
  have hbx : (x.b - q.b) * (x.b - q.b) ≤ t * t := by nlinarith
  have cr := cell_offset_bound cs x.r q.r t hcs hx.1 hq.1 ht hrx
  have cg := cell_offset_bound cs x.g q.g t hcs hx.2.1 hq.2.1 ht hgx
  have cb := cell_offset_bound cs x.b q.b t hcs hx.2.2 hq.2.2 ht hbx
  have hq1 : (cellKey cs q).1 = rgbToCell cs q.r := rfl
  have hq2 : (cellKey cs q).2.1 = rgbToCell cs q.g := rfl
  have hq3 : (cellKey cs q).2.2 = rgbToCell cs q.b := rfl
  set dr := rgbToCell cs x.r - (cellKey cs q).1 with hdr
  set dg := rgbToCell cs x.g - (cellKey cs q).2.1 with hdg
  set db := rgbToCell cs x.b - (cellKey cs q).2.2 with hdb
  have hdrR : -⌈t / cs⌉ ≤ dr ∧ dr ≤ ⌈t / cs⌉ := by rw [hdr, hq1]; omega
  have hdgR : -⌈t / cs⌉ ≤ dg ∧ dg ≤ ⌈t / cs⌉ := by rw [hdg, hq2]; omega
  have hdbR : -⌈t / cs⌉ ≤ db ∧ db ≤ ⌈t / cs⌉ := by rw [hdb, hq3]; omega
  set d := max |dr| (max |dg| |db|) with hd
  have habs_r : |dr| ≤ d := le_max_left _ _
  have habs_g : |dg| ≤ d := le_trans (le_max_left _ _) (le_max_right _ _)
  have habs_b : |db| ≤ d := le_trans (le_max_right _ _) (le_max_right _ _)
  have hd0 : 0 ≤ d := le_trans (abs_nonneg dr) habs_r
  have hdR : d ≤ ⌈t / cs⌉ := by
    refine max_le (abs_le.mpr ⟨hdrR.1, hdrR.2⟩) (max_le (abs_le.mpr ⟨hdgR.1, hdgR.2⟩)
      (abs_le.mpr ⟨hdbR.1, hdbR.2⟩))
  have hcell : cellKey cs x =
      ((cellKey cs q).1 + dr, (cellKey cs q).2.1 + dg, (cellKey cs q).2.2 + db) := by
    have e1 : (cellKey cs q).1 + dr = rgbToCell cs x.r := by omega
    have e2 : (cellKey cs q).2.1 + dg = rgbToCell cs x.g := by omega
    have e3 : (cellKey cs q).2.2 + db = rgbToCell cs x.b := by omega
    rw [e1, e2, e3]
    rfl
  refine ⟨d, (mem_intRange 0 ⌈t / cs⌉ d).mpr ⟨hd0, hdR⟩, ?_⟩
  rw [searchCubeAtRadius]
  by_cases hdz : d = 0
  · rw [if_pos hdz]
    have hr0 : dr = 0 := abs_eq_zero.mp (le_antisymm (hdz ▸ habs_r) (abs_nonneg _))
    have hg0 : dg = 0 := abs_eq_zero.mp (le_antisymm (hdz ▸ habs_g) (abs_nonneg _))
    have hb0 : db = 0 := abs_eq_zero.mp (le_antisymm (hdz ▸ habs_b) (abs_nonneg _))
    rw [mem_searchSingleCell]
    refine ⟨hmem, ?_, hdist⟩
    rw [hcell, hr0, hg0, hb0]
    simp
  · rw [if_neg hdz]
    simp only [List.mem_flatMap, mem_intRange]
    refine ⟨dr, ⟨by cases abs_le.mp habs_r; omega, by cases abs_le.mp habs_r; omega⟩,
      dg, ⟨by cases abs_le.mp habs_g; omega, by cases abs_le.mp habs_g; omega⟩,
      db, ⟨by cases abs_le.mp habs_b; omega, by cases abs_le.mp habs_b; omega⟩, ?_⟩
    have hshell : shellCond d dr dg db = true := by
      rcases max_choice |dr| (max |dg| |db|) with h1 | h1
      · have hh : |dr| = d := by rw [hd, h1]
        simp [shellCond, hh]
      · rcases max_choice |dg| |db| with h2 | h2
        · have hh : |dg| = d := by rw [hd, h1, h2]
          simp [shellCond, hh]
        · have hh : |db| = d := by rw [hd, h1, h2]
          simp [shellCond, hh]
    rw [if_pos hshell, mem_searchSingleCell]
    exact ⟨hmem, hcell, hdist⟩

theorem findSimilarDynamic_eq (cs : Rat) (grid : List Image) (q : Image)
    (t : Rat) (m : Int) :
    findSimilarDynamic cs grid q t m =
      if 0 < m ∧ m < ((sortByDist q
            (dynGo cs grid (cellKey cs q) q t m (intRange 0 ⌈t / cs⌉) [])).length : Int)
      then (sortByDist q
            (dynGo cs grid (cellKey cs q) q t m (intRange 0 ⌈t / cs⌉) [])).take m.toNat
      else sortByDist q (dynGo cs grid (cellKey cs q) q t m (intRange 0 ⌈t / cs⌉) []) :=
  rfl

/-- C10: `HashSearch::findSimilarWithLimit` returns at most `maxResults`
records when `maxResults > 0`, each a stored record within the threshold,
sorted ascending by distance; for `maxResults ≤ 0` no truncation or early
termination applies and the returned set is exactly the stored records
within the threshold. -/
theorem findSimilarWithLimit_spec (cs : Rat) (grid : List Image) (q : Image)
    (t : Rat) (maxResults : Int) (hcs : 0 < cs)
    (hwf : ∀ img ∈ grid, wellFormed img) (hq : wellFormed q) :
    (0 < maxResults →
      ((findSimilarWithLimit cs grid q t maxResults).length : Int) ≤ maxResults) ∧
    (∀ x ∈ findSimilarWithLimit cs grid q t maxResults,
      x ∈ grid ∧ distLE q x t = true) ∧
    SortedByDist q (findSimilarWithLimit cs grid q t maxResults) ∧
    (maxResults ≤ 0 → ∀ x,
      x ∈ findSimilarWithLimit cs grid q t maxResults ↔
        x ∈ grid ∧ distLE q x t = true) := by
  have hsound : ∀ x ∈ sortByDist q
      (dynGo cs grid (cellKey cs q) q t maxResults (intRange 0 ⌈t / cs⌉) []),
      x ∈ grid ∧ distLE q x t = true := by
    intro x hxs
    rw [mem_sortByDist] at hxs
    rcases dynGo_sound cs grid (cellKey cs q) q t maxResults _ _ x hxs with h | ⟨r, _, hx⟩
    · simp at h
    · exact searchCubeAtRadius_sound cs grid (cellKey cs q) r q t x hx
  rw [findSimilarWithLimit, findSimilarDynamic_eq]
  refine ⟨?_, ?_, ?_, ?_⟩
  · intro hm
    split
    · rename_i hcond
      rw [List.length_take]
      omega
    · rename_i hcond
      omega
  · intro x hx
    split at hx
    · exact hsound x (List.mem_of_mem_take hx)
    · exact hsound x hx
  · split
    · exact (sortByDist_sorted q _).take _
    · exact sortByDist_sorted q _
  · intro hm x
    have hcond : ¬ (0 < maxResults ∧ maxResults < ((sortByDist q
        (dynGo cs grid (cellKey cs q) q t maxResults (intRange 0 ⌈t / cs⌉) [])).length : Int)) := by
      rintro ⟨h1, _⟩; omega
    rw [if_neg hcond, mem_sortByDist, dynGo_no_limit cs grid (cellKey cs q) q t maxResults hm,
      List.nil_append, List.mem_flatMap]
    constructor
    · rintro ⟨r, _, hx⟩
      exact searchCubeAtRadius_sound cs grid (cellKey cs q) r q t x hx
    · rintro ⟨hmem, hdist⟩
      have hx := hwf x hmem
      exact dynShells_complete cs grid q x t hcs ⟨hq.1, hq.2.2.1, hq.2.2.2.2.1⟩
        ⟨hx.1, hx.2.2.1, hx.2.2.2.2.1⟩ hmem hdist

theorem imgHashA_wf : wellFormed imgHashA := by
  refine ⟨?_, ?_, ?_, ?_, ?_, ?_⟩ <;> norm_num [imgHashA]

theorem imgHashQ_wf : wellFormed imgHashQ := by
  refine ⟨?_, ?_, ?_, ?_, ?_, ?_⟩ <;> norm_num [imgHashQ]

theorem findSimilarWithLimit_spec_witness :
    (0 : Rat) < 30 ∧ (∀ img ∈ [imgHashA], wellFormed img) ∧ wellFormed imgHashQ ∧
    ((0 < (1 : Int) →
        ((findSimilarWithLimit 30 [imgHashA] imgHashQ 20 1).length : Int) ≤ 1) ∧
      (∀ x ∈ findSimilarWithLimit 30 [imgHashA] imgHashQ 20 1,
        x ∈ [imgHashA] ∧ distLE imgHashQ x 20 = true) ∧
      SortedByDist imgHashQ (findSimilarWithLimit 30 [imgHashA] imgHashQ 20 1) ∧
      ((1 : Int) ≤ 0 → ∀ x,
        x ∈ findSimilarWithLimit 30 [imgHashA] imgHashQ 20 1 ↔
          x ∈ [imgHashA] ∧ distLE imgHashQ x 20 = true)) := by
  have hwf : ∀ img ∈ [imgHashA], wellFormed img := by
    intro img h
    rw [List.mem_singleton] at h
    subst h
    exact imgHashA_wf
  exact ⟨by norm_num, hwf, imgHashQ_wf,
    findSimilarWithLimit_spec 30 [imgHashA] imgHashQ 20 1 (by norm_num) hwf imgHashQ_wf⟩

unseal Rat.add Rat.mul Rat.inv Rat.sub Rat.ofScientific in
/-- C3 (code bug): with cell size 1 and threshold 2, the adaptive
(`findSimilarDynamic`) query of `hash_search.h` with no result limit returns
the single stored record twice — the cell at offset `(1,1,0)` is examined at
shell radius 1 (a Chebyshev-boundary cell) and again at radius 2 (its
Manhattan distance equals 2, and the shell test also accepts cells whose
Manhattan distance equals the radius) — while the plain full-cube hash query
with the same cell size returns it exactly once. -/
theorem adaptive_shell_duplicates_record :
    findSimilarDynamic 1 [imgShell] imgShellQ 2 (-1) = [imgShell, imgShell] ∧
      hashFindSimilar 1 [imgShell] imgShellQ 2 = [imgShell] := by
  constructor
  · decide
  · decide

unseal Rat.add Rat.mul Rat.inv Rat.sub Rat.ofScientific in
/-- C9 counterexample: a query with negative threshold is not rejected — it
silently returns an ordinary (empty) result list even though a stored record
sits at distance 0 from the query point. -/
theorem negative_threshold_silently_returns :
    findSimilarDynamic 30 [imgHashQ] imgHashQ (-1) (-1) = [] := by
  decide

theorem getChildIndexO_lt (b : Box3) (img : Image) : getChildIndexO b img < 8 := by
  rw [getChildIndexO]
  split <;> split <;> split <;> omega

theorem childBoxO_ordered (b : Box3) (hb : b.ordered) (i : Nat) :
    (childBoxO b i).ordered := by
  obtain ⟨h1, h2, h3⟩ := hb
  rw [childBoxO]
  split
  · exact ⟨by simp [Box3.midR]; linarith, by simp [Box3.midG]; linarith,
      by simp [Box3.midB]; linarith⟩
  all_goals split
  all_goals try split
  all_goals try split
  all_goals try split
  all_goals try split
  all_goals try split
  all_goals
    refine ⟨?_, ?_, ?_⟩ <;>
      simp [Box3.midR, Box3.midG, Box3.midB] <;> linarith

theorem inBox3_childBoxO_getChildIndexO (b : Box3) (img : Image)
    (hb : b.ordered) (h : inBox3 b img) :
    inBox3 (childBoxO b (getChildIndexO b img)) img := by
  obtain ⟨hb1, hb2, hb3⟩ := hb
  obtain ⟨h1, h2, h3, h4, h5, h6⟩ := h
  rw [getChildIndexO]
  by_cases c1 : b.midR ≤ img.r <;> by_cases c2 : b.midG ≤ img.g <;>
    by_cases c3 : b.midB ≤ img.b <;>
    simp only [c1, c2, c3, if_true, if_false, ite_true, ite_false] <;>
    norm_num [childBoxO, inBox3] <;>
    simp only [Box3.midR, Box3.midG, Box3.midB] at c1 c2 c3 ⊢ <;>
    refine ⟨by linarith, by linarith, by linarith, by linarith, by linarith, by linarith⟩

theorem inBox3_of_childBoxO (b : Box3) (hb : b.ordered) (i : Nat) (x : Image)
    (h : inBox3 (childBoxO b i) x) : inBox3 b x := by
  obtain ⟨hb1, hb2, hb3⟩ := hb
  rw [childBoxO] at h
  split at h <;>
    [skip; split at h] <;>
    first
    | (obtain ⟨h1, h2, h3, h4, h5, h6⟩ := h
       simp only [Box3.midR, Box3.midG, Box3.midB] at h1 h2 h3 h4 h5 h6
       refine ⟨by linarith, by linarith, by linarith, by linarith, by linarith, by linarith⟩)
    | skip
  all_goals try split at h
  all_goals try split at h
  all_goals try split at h
  all_goals try split at h
  all_goals try split at h
  all_goals
    obtain ⟨h1, h2, h3, h4, h5, h6⟩ := h
  all_goals
    simp only [Box3.midR, Box3.midG, Box3.midB] at h1 h2 h3 h4 h5 h6
  all_goals
    refine ⟨by linarith, by linarith, by linarith, by linarith, by linarith, by linarith⟩

/-- The box-distance bound is sound: the squared minimum box distance never
exceeds the squared distance to any point inside the box. -/
theorem minDistSqO_le_sqDist (b : Box3) (q x : Image) (h : inBox3 b x) :
    minDistSqO b q ≤ sqDist q x := by
  obtain ⟨h1, h2, h3, h4, h5, h6⟩ := h
  have gr : axisGapSq q.r b.minR b.maxR ≤ (q.r - x.r) * (q.r - x.r) := by
    rw [axisGapSq]
    split
    · nlinarith
    · split
      · nlinarith
      · nlinarith [sq_nonneg (q.r - x.r)]
  have gg : axisGapSq q.g b.minG b.maxG ≤ (q.g - x.g) * (q.g - x.g) := by
    rw [axisGapSq]
    split
    · nlinarith
    · split
      · nlinarith
      · nlinarith [sq_nonneg (q.g - x.g)]
  have gb : axisGapSq q.b b.minB b.maxB ≤ (q.b - x.b) * (q.b - x.b) := by
    rw [axisGapSq]
    split
    · nlinarith
    · split
      · nlinarith
      · nlinarith [sq_nonneg (q.b - x.b)]
  rw [minDistSqO, sqDist]
  linarith

theorem WFO_node_box_child (b : Box3) (c0 c1 c2 c3 c4 c5 c6 c7 : ONode)
    (h : WFO (.node b c0 c1 c2 c3 c4 c5 c6 c7)) (i : Nat) (hi : i < 8) :
    ((ONode.node b c0 c1 c2 c3 c4 c5 c6 c7).child i).box = childBoxO b i ∧
      WFO ((ONode.node b c0 c1 c2 c3 c4 c5 c6 c7).child i) := by
  rw [WFO] at h
  obtain ⟨_, w0, w1, w2, w3, w4, w5, w6, w7⟩ := h
  have : i = 0 ∨ i = 1 ∨ i = 2 ∨ i = 3 ∨ i = 4 ∨ i = 5 ∨ i = 6 ∨ i = 7 := by omega
  rcases this with rfl | rfl | rfl | rfl | rfl | rfl | rfl | rfl <;>
    simpa [ONode.child] using ‹_ ∧ _›

/-- Every record stored in a well-formed subtree lies in the subtree's
root box. -/
theorem WFO_mem_box (n : ONode) :
    ∀ x : Image, WFO n → x ∈ allImagesO n → inBox3 n.box x := by
  induction n with
  | leaf b imgs =>
    intro x hwf hx
    rw [WFO] at hwf
    exact hwf.2 x hx
  | node b c0 c1 c2 c3 c4 c5 c6 c7 ih0 ih1 ih2 ih3 ih4 ih5 ih6 ih7 =>
    intro x hwf hx
    rw [WFO] at hwf
    obtain ⟨hb, w0, w1, w2, w3, w4, w5, w6, w7⟩ := hwf
    rw [allImagesO] at hx
    simp only [List.mem_append] at hx
    rw [ONode.box]
    rcases hx with ((((((hx | hx) | hx) | hx) | hx) | hx) | hx) | hx
    · exact inBox3_of_childBoxO b hb 0 x (w0.1 ▸ ih0 x w0.2 hx)
    · exact inBox3_of_childBoxO b hb 1 x (w1.1 ▸ ih1 x w1.2 hx)
    · exact inBox3_of_childBoxO b hb 2 x (w2.1 ▸ ih2 x w2.2 hx)
    · exact inBox3_of_childBoxO b hb 3 x (w3.1 ▸ ih3 x w3.2 hx)
    · exact inBox3_of_childBoxO b hb 4 x (w4.1 ▸ ih4 x w4.2 hx)
    · exact inBox3_of_childBoxO b hb 5 x (w5.1 ▸ ih5 x w5.2 hx)
    · exact inBox3_of_childBoxO b hb 6 x (w6.1 ▸ ih6 x w6.2 hx)
    · exact inBox3_of_childBoxO b hb 7 x (w7.1 ▸ ih7 x w7.2 hx)

theorem searchO_sound (n : ONode) :
    ∀ (q x : Image) (t : Rat), x ∈ searchO q t n →
      x ∈ allImagesO n ∧ distLE q x t = true := by
  induction n with
  | leaf b imgs =>
    intro q x t hx
    rw [searchO] at hx
    split at hx
    · rw [List.mem_filter] at hx
      exact ⟨hx.1, hx.2⟩
    · simp at hx
  | node b c0 c1 c2 c3 c4 c5 c6 c7 ih0 ih1 ih2 ih3 ih4 ih5 ih6 ih7 =>
    intro q x t hx
    rw [searchO] at hx
    split at hx
    · simp only [List.mem_append] at hx
      rw [allImagesO]
      simp only [List.mem_append]
      rcases hx with ((((((hx | hx) | hx) | hx) | hx) | hx) | hx) | hx
      · exact ⟨by left; left; left; left; left; left; left; exact (ih0 q x t hx).1,
          (ih0 q x t hx).2⟩
      · exact ⟨by left; left; left; left; left; left; right; exact (ih1 q x t hx).1,
          (ih1 q x t hx).2⟩
      · exact ⟨by left; left; left; left; left; right; exact (ih2 q x t hx).1,
          (ih2 q x t hx).2⟩
      · exact ⟨by left; left; left; left; right; exact (ih3 q x t hx).1,
          (ih3 q x t hx).2⟩
      · exact ⟨by left; left; left; right; exact (ih4 q x t hx).1, (ih4 q x t hx).2⟩
      · exact ⟨by left; left; right; exact (ih5 q x t hx).1, (ih5 q x t hx).2⟩
      · exact ⟨by left; right; exact (ih6 q x t hx).1, (ih6 q x t hx).2⟩
      · exact ⟨by right; exact (ih7 q x t hx).1, (ih7 q x t hx).2⟩
    · simp at hx

theorem searchO_complete (n : ONode) :
    ∀ (q x : Image) (t : Rat), WFO n → x ∈ allImagesO n →
      distLE q x t = true → x ∈ searchO q t n := by
  induction n with
  | leaf b imgs =>
    intro q x t hwf hx hd
    have hbox : inBox3 b x := (WFO_mem_box _ x hwf hx :)
    obtain ⟨ht, hsq⟩ : 0 ≤ t ∧ sqDist q x ≤ t * t := by simpa [distLE] using hd
    have hprune : octPrune b q t = true := by
      rw [octPrune, decide_eq_true_eq]
      exact ⟨ht, le_trans (minDistSqO_le_sqDist b q x hbox) hsq⟩
    rw [searchO, if_pos hprune, List.mem_filter]
    exact ⟨hx, hd⟩
  | node b c0 c1 c2 c3 c4 c5 c6 c7 ih0 ih1 ih2 ih3 ih4 ih5 ih6 ih7 =>
    intro q x t hwf hx hd
    have hbox : inBox3 b x := by
      have := WFO_mem_box _ x hwf hx
      rwa [ONode.box] at this
    obtain ⟨ht, hsq⟩ : 0 ≤ t ∧ sqDist q x ≤ t * t := by simpa [distLE] using hd
    have hprune : octPrune b q t = true := by
      rw [octPrune, decide_eq_true_eq]
      exact ⟨ht, le_trans (minDistSqO_le_sqDist b q x hbox) hsq⟩
    rw [WFO] at hwf
    obtain ⟨hb, w0, w1, w2, w3, w4, w5, w6, w7⟩ := hwf
    rw [allImagesO] at hx
    simp only [List.mem_append] at hx
    rw [searchO, if_pos hprune]
    simp only [List.mem_append]
    rcases hx with ((((((hx | hx) | hx) | hx) | hx) | hx) | hx) | hx
    · exact by tauto
    · exact by left; left; left; left; left; left; right; exact ih1 q x t w1.2 hx hd
    · exact by left; left; left; left; left; right; exact ih2 q x t w2.2 hx hd
    · exact by left; left; left; left; right; exact ih3 q x t w3.2 hx hd
    · exact by left; left; left; right; exact ih4 q x t w4.2 hx hd
    · exact by left; left; right; exact ih5 q x t w5.2 hx hd
    · exact by left; right; exact ih6 q x t w6.2 hx hd
    · exact by right; exact ih7 q x t w7.2 hx hd

theorem allImagesO_splitNodeO (b : Box3) : allImagesO (splitNodeO b) = [] := by
  simp [splitNodeO, allImagesO]

theorem WFO_splitNodeO (b : Box3) (hb : b.ordered) : WFO (splitNodeO b) := by
  rw [splitNodeO, WFO]
  refine ⟨hb, ?_, ?_, ?_, ?_, ?_, ?_, ?_, ?_⟩ <;>
    exact ⟨rfl, childBoxO_ordered b hb _, by simp⟩

theorem splitNodeO_box (b : Box3) : (splitNodeO b).box = b := rfl

theorem foldl_bind_none (thr fuel : Nat) (l : List Image) :
    l.foldl (fun acc x => acc.bind (fun nn => insertO thr fuel nn x)) none = none := by
  induction l with
  | nil => rfl
  | cons x xs ih => simpa using ih

theorem child_node_eval0 (b : Box3) (c0 c1 c2 c3 c4 c5 c6 c7 : ONode) :
    (ONode.node b c0 c1 c2 c3 c4 c5 c6 c7).child 0 = c0 := rfl

theorem setChild_node_eval0 (b : Box3) (c0 c1 c2 c3 c4 c5 c6 c7 c : ONode) :
    (ONode.node b c0 c1 c2 c3 c4 c5 c6 c7).setChild 0 c = ONode.node b c c1 c2 c3 c4 c5 c6 c7 := rfl

theorem child_node_eval1 (b : Box3) (c0 c1 c2 c3 c4 c5 c6 c7 : ONode) :
    (ONode.node b c0 c1 c2 c3 c4 c5 c6 c7).child 1 = c1 := rfl

theorem setChild_node_eval1 (b : Box3) (c0 c1 c2 c3 c4 c5 c6 c7 c : ONode) :
    (ONode.node b c0 c1 c2 c3 c4 c5 c6 c7).setChild 1 c = ONode.node b c0 c c2 c3 c4 c5 c6 c7 := rfl

theorem child_node_eval2 (b : Box3) (c0 c1 c2 c3 c4 c5 c6 c7 : ONode) :
    (ONode.node b c0 c1 c2 c3 c4 c5 c6 c7).child 2 = c2 := rfl

theorem setChild_node_eval2 (b : Box3) (c0 c1 c2 c3 c4 c5 c6 c7 c : ONode) :
    (ONode.node b c0 c1 c2 c3 c4 c5 c6 c7).setChild 2 c = ONode.node b c0 c1 c c3 c4 c5 c6 c7 := rfl

theorem child_node_eval3 (b : Box3) (c0 c1 c2 c3 c4 c5 c6 c7 : ONode) :
    (ONode.node b c0 c1 c2 c3 c4 c5 c6 c7).child 3 = c3 := rfl

theorem setChild_node_eval3 (b : Box3) (c0 c1 c2 c3 c4 c5 c6 c7 c : ONode) :
    (ONode.node b c0 c1 c2 c3 c4 c5 c6 c7).setChild 3 c = ONode.node b c0 c1 c2 c c4 c5 c6 c7 := rfl

theorem child_node_eval4 (b : Box3) (c0 c1 c2 c3 c4 c5 c6 c7 : ONode) :
    (ONode.node b c0 c1 c2 c3 c4 c5 c6 c7).child 4 = c4 := rfl

theorem setChild_node_eval4 (b : Box3) (c0 c1 c2 c3 c4 c5 c6 c7 c : ONode) :
    (ONode.node b c0 c1 c2 c3 c4 c5 c6 c7).setChild 4 c = ONode.node b c0 c1 c2 c3 c c5 c6 c7 := rfl

theorem child_node_eval5 (b : Box3) (c0 c1 c2 c3 c4 c5 c6 c7 : ONode) :
    (ONode.node b c0 c1 c2 c3 c4 c5 c6 c7).child 5 = c5 := rfl

theorem setChild_node_eval5 (b : Box3) (c0 c1 c2 c3 c4 c5 c6 c7 c : ONode) :
    (ONode.node b c0 c1 c2 c3 c4 c5 c6 c7).setChild 5 c = ONode.node b c0 c1 c2 c3 c4 c c6 c7 := rfl

theorem child_node_eval6 (b : Box3) (c0 c1 c2 c3 c4 c5 c6 c7 : ONode) :
    (ONode.node b c0 c1 c2 c3 c4 c5 c6 c7).child 6 = c6 := rfl

theorem setChild_node_eval6 (b : Box3) (c0 c1 c2 c3 c4 c5 c6 c7 c : ONode) :
    (ONode.node b c0 c1 c2 c3 c4 c5 c6 c7).setChild 6 c = ONode.node b c0 c1 c2 c3 c4 c5 c c7 := rfl

theorem child_node_eval7 (b : Box3) (c0 c1 c2 c3 c4 c5 c6 c7 : ONode) :
    (ONode.node b c0 c1 c2 c3 c4 c5 c6 c7).child 7 = c7 := rfl

theorem setChild_node_eval7 (b : Box3) (c0 c1 c2 c3 c4 c5 c6 c7 c : ONode) :
    (ONode.node b c0 c1 c2 c3 c4 c5 c6 c7).setChild 7 c = ONode.node b c0 c1 c2 c3 c4 c5 c6 c := rfl

theorem insertO_spec (thr : Nat) :
    ∀ (fuel : Nat) (n : ONode) (img : Image) (n' : ONode),
      insertO thr fuel n img = some n' →
      n'.box = n.box ∧
      (∀ y, (allImagesO n').count y = ((img :: allImagesO n).count y)) ∧
      (WFO n → inBox3 n.box img → WFO n') := by
  intro fuel
  induction fuel with
  | zero =>
    intro n img n' h
    rw [insertO] at h
    cases h
  | succ fuel ih =>
    have hfold : ∀ (l : List Image) (m : ONode) (n' : ONode),
        l.foldl (fun acc x => acc.bind (fun nn => insertO thr fuel nn x)) (some m) =
          some n' →
        n'.box = m.box ∧
        (∀ y, (allImagesO n').count y = ((l ++ allImagesO m).count y)) ∧
        ((WFO m ∧ ∀ x ∈ l, inBox3 m.box x) → WFO n') := by
      intro l
      induction l with
      | nil =>
        intro m n' h
        simp only [List.foldl_nil, Option.some.injEq] at h
        subst h
        exact ⟨rfl, fun y => by simp, fun hm => hm.1⟩
      | cons x xs ihl =>
        intro m n' h
        rw [List.foldl_cons, Option.some_bind] at h
        cases hm1 : insertO thr fuel m x with
        | none =>
          rw [hm1, foldl_bind_none] at h
          cases h
        | some m1 =>
          rw [hm1] at h
          obtain ⟨hbox1, hcnt1, hwf1⟩ := ih m x m1 hm1
          obtain ⟨hbox2, hcnt2, hwf2⟩ := ihl m1 n' h
          refine ⟨hbox2.trans hbox1, ?_, ?_⟩
          · intro y
            have := hcnt1 y
            have h2 := hcnt2 y
            simp only [List.count_append, List.count_cons] at *
            omega
          · rintro ⟨hwfm, hmem⟩
            refine hwf2 ⟨hwf1 hwfm (hmem x (List.mem_cons_self x xs)), ?_⟩
            intro z hz
            rw [hbox1]
            exact hmem z (List.mem_cons_of_mem x hz)
    intro n img n' h
    match n with
    | ONode.leaf b imgs =>
      rw [insertO] at h
      split at h
      · rename_i hlen
        obtain ⟨hbox, hcnt, hwf⟩ := hfold (imgs ++ [img]) (splitNodeO b) n' h
        refine ⟨by rw [hbox, splitNodeO_box]; rfl, ?_, ?_⟩
        · intro y
          have := hcnt y
          rw [allImagesO_splitNodeO] at this
          simp only [List.count_append, List.count_cons, List.count_nil, allImagesO] at *
          omega
        · intro hwfn hbx
          rw [WFO] at hwfn
          refine hwf ⟨WFO_splitNodeO b hwfn.1, ?_⟩
          intro z hz
          rw [splitNodeO_box]
          rcases List.mem_append.1 hz with hz | hz
          · exact hwfn.2 z hz
          · rw [List.mem_singleton] at hz
            subst hz
            exact hbx
      · rename_i hlen
        rw [Option.some.injEq] at h
        subst h
        refine ⟨rfl, ?_, ?_⟩
        · intro y
          simp only [allImagesO, List.count_append, List.count_cons, List.count_nil]
          omega
        · intro hwfn hbx
          rw [WFO] at hwfn ⊢
          refine ⟨hwfn.1, ?_⟩
          intro z hz
          rcases List.mem_append.1 hz with hz | hz
          · exact hwfn.2 z hz
          · rw [List.mem_singleton] at hz
            subst hz
            exact hbx
    | ONode.node b c0 c1 c2 c3 c4 c5 c6 c7 =>
      rw [insertO] at h
      simp only [Option.map_eq_some'] at h
      obtain ⟨c', hc', rfl⟩ := h
      have hi8 := getChildIndexO_lt b img
      obtain ⟨hbox1, hcnt1, hwf1⟩ := ih _ img c' hc'
      have hsplit : getChildIndexO b img = 0 ∨ getChildIndexO b img = 1 ∨
          getChildIndexO b img = 2 ∨ getChildIndexO b img = 3 ∨
          getChildIndexO b img = 4 ∨ getChildIndexO b img = 5 ∨
          getChildIndexO b img = 6 ∨ getChildIndexO b img = 7 := by omega
      refine ⟨?_, ?_, ?_⟩
      · rcases hsplit with hh | hh | hh | hh | hh | hh | hh | hh <;>
          rw [hh] <;>
          simp only [child_node_eval0, child_node_eval1, child_node_eval2, child_node_eval3, child_node_eval4, child_node_eval5, child_node_eval6, child_node_eval7, setChild_node_eval0, setChild_node_eval1, setChild_node_eval2, setChild_node_eval3, setChild_node_eval4, setChild_node_eval5, setChild_node_eval6, setChild_node_eval7, ONode.box]
      · intro y
        have hc := hcnt1 y
        rcases hsplit with hh | hh | hh | hh | hh | hh | hh | hh <;>
          rw [hh] at hc hc' ⊢ <;>
          simp only [child_node_eval0, child_node_eval1, child_node_eval2, child_node_eval3, child_node_eval4, child_node_eval5, child_node_eval6, child_node_eval7, setChild_node_eval0, setChild_node_eval1, setChild_node_eval2, setChild_node_eval3, setChild_node_eval4, setChild_node_eval5, setChild_node_eval6, setChild_node_eval7, allImagesO, List.count_append,
            List.count_cons] at hc ⊢ <;>
          omega
      · intro hwfn hbx
        have hbxi := inBox3_childBoxO_getChildIndexO b img
          (by rw [WFO] at hwfn; exact hwfn.1) (by rwa [ONode.box] at hbx)
        rw [WFO] at hwfn
        obtain ⟨hb, w0, w1, w2, w3, w4, w5, w6, w7⟩ := hwfn
        rcases hsplit with hh | hh | hh | hh | hh | hh | hh | hh <;>
          rw [hh] at hbxi hbox1 hwf1 hc' ⊢ <;>
          simp only [child_node_eval0, child_node_eval1, child_node_eval2, child_node_eval3, child_node_eval4, child_node_eval5, child_node_eval6, child_node_eval7, setChild_node_eval0, setChild_node_eval1, setChild_node_eval2, setChild_node_eval3, setChild_node_eval4, setChild_node_eval5, setChild_node_eval6, setChild_node_eval7] at hbox1 hwf1 hc' ⊢ <;>
          rw [WFO] <;>
          [exact ⟨hb, ⟨hbox1.trans w0.1, hwf1 w0.2 (by rw [w0.1]; exact hbxi)⟩,
              w1, w2, w3, w4, w5, w6, w7⟩;
           exact ⟨hb, w0, ⟨hbox1.trans w1.1, hwf1 w1.2 (by rw [w1.1]; exact hbxi)⟩,
              w2, w3, w4, w5, w6, w7⟩;
           exact ⟨hb, w0, w1, ⟨hbox1.trans w2.1, hwf1 w2.2 (by rw [w2.1]; exact hbxi)⟩,
              w3, w4, w5, w6, w7⟩;
           exact ⟨hb, w0, w1, w2, ⟨hbox1.trans w3.1, hwf1 w3.2 (by rw [w3.1]; exact hbxi)⟩,
              w4, w5, w6, w7⟩;
           exact ⟨hb, w0, w1, w2, w3, ⟨hbox1.trans w4.1, hwf1 w4.2 (by rw [w4.1]; exact hbxi)⟩,
              w5, w6, w7⟩;
           exact ⟨hb, w0, w1, w2, w3, w4, ⟨hbox1.trans w5.1, hwf1 w5.2 (by rw [w5.1]; exact hbxi)⟩,
              w6, w7⟩;
           exact ⟨hb, w0, w1, w2, w3, w4, w5, ⟨hbox1.trans w6.1, hwf1 w6.2 (by rw [w6.1]; exact hbxi)⟩,
              w7⟩;
           exact ⟨hb, w0, w1, w2, w3, w4, w5, w6,
              ⟨hbox1.trans w7.1, hwf1 w7.2 (by rw [w7.1]; exact hbxi)⟩⟩]

theorem buildOctree_fold (fuel thr : Nat) :
    ∀ (l : List Image) (m t : ONode),
      l.foldl (fun acc img => acc.bind (fun n => insertO thr fuel n img)) (some m) =
        some t →
      t.box = m.box ∧
      (∀ y, (allImagesO t).count y = ((l ++ allImagesO m).count y)) ∧
      ((WFO m ∧ ∀ x ∈ l, inBox3 m.box x) → WFO t) := by
  intro l
  induction l with
  | nil =>
    intro m t h
    simp only [List.foldl_nil, Option.some.injEq] at h
    subst h
    exact ⟨rfl, fun y => by simp, fun hm => hm.1⟩
  | cons x xs ihl =>
    intro m t h
    rw [List.foldl_cons, Option.some_bind] at h
    cases hm1 : insertO thr fuel m x with
    | none =>
      rw [hm1, foldl_bind_none] at h
      cases h
    | some m1 =>
      rw [hm1] at h
      obtain ⟨hbox1, hcnt1, hwf1⟩ := insertO_spec thr fuel m x m1 hm1
      obtain ⟨hbox2, hcnt2, hwf2⟩ := ihl m1 t h
      refine ⟨hbox2.trans hbox1, ?_, ?_⟩
      · intro y
        have h1 := hcnt1 y
        have h2 := hcnt2 y
        simp only [List.count_append, List.count_cons] at *
        omega
      · rintro ⟨hwfm, hmem⟩
        refine hwf2 ⟨hwf1 hwfm (hmem x (List.mem_cons_self x xs)), ?_⟩
        intro z hz
        rw [hbox1]
        exact hmem z (List.mem_cons_of_mem x hz)

theorem wellFormed_inBox3_root (img : Image) (h : wellFormed img) :
    inBox3 rootBoxO img := by
  obtain ⟨h1, h2, h3, h4, h5, h6⟩ := h
  exact ⟨h1, h2, h3, h4, h5, h6⟩

theorem buildOctree_spec (fuel thr : Nat) (imgs : List Image) (t : ONode)
    (h : buildOctree fuel thr imgs = some t)
    (hwf : ∀ img ∈ imgs, wellFormed img) :
    WFO t ∧ ∀ y, (allImagesO t).count y = imgs.count y := by
  rw [buildOctree] at h
  obtain ⟨hbox, hcnt, hwfi⟩ := buildOctree_fold fuel thr imgs emptyOctree t h
  constructor
  · refine hwfi ⟨?_, ?_⟩
    · rw [emptyOctree, WFO]
      refine ⟨⟨by norm_num [rootBoxO], by norm_num [rootBoxO], by norm_num [rootBoxO]⟩, by simp⟩
    · intro x hx
      exact wellFormed_inBox3_root x (hwf x hx)
  · intro y
    have := hcnt y
    simpa [emptyOctree, allImagesO] using this

/-- C1: for every dataset of well-formed records that the octree insert
actually finishes building (the source recursion has no depth ceiling, so
the embedding takes a fuel bound), and every query point and threshold, the
set of records returned by the non-relaxed octree query equals the set
returned by the linear brute-force scan: the box-distance pruning never
excludes a subtree containing a matching record, and leaves filter by true
distance. -/
theorem octree_query_eq_linear (fuel thr : Nat) (imgs : List Image)
    (q : Image) (r : Rat) (t : ONode)
    (hbuild : buildOctree fuel thr imgs = some t)
    (hwf : ∀ img ∈ imgs, wellFormed img) :
    ∀ x, x ∈ octreeFindSimilar t q r ↔ x ∈ linearFindSimilar imgs q r := by
  intro x
  obtain ⟨hwft, hcnt⟩ := buildOctree_spec fuel thr imgs t hbuild hwf
  have hmem : x ∈ allImagesO t ↔ x ∈ imgs := by
    constructor
    · intro hx
      have := hcnt x
      have hpos : 0 < (allImagesO t).count x := List.count_pos_iff.mpr hx
      exact List.count_pos_iff.mp (by omega)
    · intro hx
      have := hcnt x
      have hpos : 0 < imgs.count x := List.count_pos_iff.mpr hx
      exact List.count_pos_iff.mp (by omega)
  rw [octreeFindSimilar, mem_sortByDist, mem_linearFindSimilar]
  constructor
  · intro hx
    obtain ⟨hmt, hd⟩ := searchO_sound t q x r hx
    exact ⟨hmem.mp hmt, hd⟩
  · rintro ⟨hmi, hd⟩
    exact searchO_complete t q x r hwft (hmem.mpr hmi) hd

theorem octree_query_eq_linear_witness :
    buildOctree 2 10 [imgHashA] = some (ONode.leaf rootBoxO [imgHashA]) ∧
    (∀ img ∈ [imgHashA], wellFormed img) ∧
    (imgHashA ∈ octreeFindSimilar (ONode.leaf rootBoxO [imgHashA]) imgHashQ 20 ↔
      imgHashA ∈ linearFindSimilar [imgHashA] imgHashQ 20) := by
  have hwf : ∀ img ∈ [imgHashA], wellFormed img := by
    intro img h
    rw [List.mem_singleton] at h
    subst h
    exact imgHashA_wf
  have hbuild : buildOctree 2 10 [imgHashA] = some (ONode.leaf rootBoxO [imgHashA]) := by
    decide
  exact ⟨hbuild, hwf,
    octree_query_eq_linear 2 10 [imgHashA] imgHashQ 20 _ hbuild hwf imgHashA⟩

theorem splitNodeO_child (b : Box3) (i : Nat) (hi : i < 8) :
    (splitNodeO b).child i = ONode.leaf (childBoxO b i) [] := by
  have h : i = 0 ∨ i = 1 ∨ i = 2 ∨ i = 3 ∨ i = 4 ∨ i = 5 ∨ i = 6 ∨ i = 7 := by omega
  rcases h with rfl | rfl | rfl | rfl | rfl | rfl | rfl | rfl <;> rfl

theorem splitNodeO_setChild_child (b : Box3) (i : Nat) (hi : i < 8) (c : ONode) :
    ((splitNodeO b).setChild i c).child i = c := by
  have h : i = 0 ∨ i = 1 ∨ i = 2 ∨ i = 3 ∨ i = 4 ∨ i = 5 ∨ i = 6 ∨ i = 7 := by omega
  rcases h with rfl | rfl | rfl | rfl | rfl | rfl | rfl | rfl <;> rfl

theorem splitNodeO_setChild_isNode (b : Box3) (i : Nat) (hi : i < 8) (c : ONode) :
    ∃ d0 d1 d2 d3 d4 d5 d6 d7,
      (splitNodeO b).setChild i c = ONode.node b d0 d1 d2 d3 d4 d5 d6 d7 := by
  have h : i = 0 ∨ i = 1 ∨ i = 2 ∨ i = 3 ∨ i = 4 ∨ i = 5 ∨ i = 6 ∨ i = 7 := by omega
  rcases h with rfl | rfl | rfl | rfl | rfl | rfl | rfl | rfl <;>
    exact ⟨_, _, _, _, _, _, _, _, rfl⟩

/-- With split threshold 1, inserting `imgOctDup` into a leaf that already
buffers one copy of it diverges: both copies always select the same octant,
so every subdivision immediately overflows again. -/
theorem insertO_dup_none :
    ∀ (fuel : Nat) (b : Box3),
      insertO 1 fuel (ONode.leaf b [imgOctDup]) imgOctDup = none := by
  intro fuel
  induction fuel using Nat.strong_induction_on with
  | _ fuel ih =>
    match fuel with
    | 0 => intro b; rfl
    | fuel + 1 =>
      intro b
      rw [insertO]
      simp only [List.length_append, List.length_singleton, List.length_cons,
        List.length_nil]
      rw [if_pos (by omega)]
      simp only [List.singleton_append]
      rw [List.foldl_cons, Option.some_bind]
      have hstep1 : insertO 1 fuel (splitNodeO b) imgOctDup = none ∨
          insertO 1 fuel (splitNodeO b) imgOctDup =
            some ((splitNodeO b).setChild (getChildIndexO b imgOctDup)
              (ONode.leaf (childBoxO b (getChildIndexO b imgOctDup)) [imgOctDup])) := by
        match fuel with
        | 0 => exact Or.inl rfl
        | fuel + 1 =>
          rw [show splitNodeO b = ONode.node b (ONode.leaf (childBoxO b 0) [])
            (ONode.leaf (childBoxO b 1) []) (ONode.leaf (childBoxO b 2) [])
            (ONode.leaf (childBoxO b 3) []) (ONode.leaf (childBoxO b 4) [])
            (ONode.leaf (childBoxO b 5) []) (ONode.leaf (childBoxO b 6) [])
            (ONode.leaf (childBoxO b 7) []) from rfl, insertO]
          rw [← show splitNodeO b = ONode.node b (ONode.leaf (childBoxO b 0) [])
            (ONode.leaf (childBoxO b 1) []) (ONode.leaf (childBoxO b 2) [])
            (ONode.leaf (childBoxO b 3) []) (ONode.leaf (childBoxO b 4) [])
            (ONode.leaf (childBoxO b 5) []) (ONode.leaf (childBoxO b 6) [])
            (ONode.leaf (childBoxO b 7) []) from rfl]
          rw [splitNodeO_child b _ (getChildIndexO_lt b imgOctDup)]
          match fuel with
          | 0 => exact Or.inl rfl
          | fuel + 1 =>
            right
            rw [insertO]
            simp only [List.nil_append, List.length_singleton]
            rw [if_neg (by omega)]
            rfl
      rcases hstep1 with h1 | h1
      · rw [h1, foldl_bind_none]
      · rw [h1, List.foldl_cons, Option.some_bind]
        have hlt := getChildIndexO_lt b imgOctDup
        obtain ⟨d0, d1, d2, d3, d4, d5, d6, d7, hnode⟩ :=
          splitNodeO_setChild_isNode b _ hlt
            (ONode.leaf (childBoxO b (getChildIndexO b imgOctDup)) [imgOctDup])
        have hstep2 : insertO 1 fuel
            ((splitNodeO b).setChild (getChildIndexO b imgOctDup)
              (ONode.leaf (childBoxO b (getChildIndexO b imgOctDup)) [imgOctDup]))
            imgOctDup = none := by
          match fuel with
          | 0 => rfl
          | fuel + 1 =>
            rw [hnode, insertO]
            have hbox : (ONode.node b d0 d1 d2 d3 d4 d5 d6 d7).child
                (getChildIndexO b imgOctDup) =
                ONode.leaf (childBoxO b (getChildIndexO b imgOctDup)) [imgOctDup] := by
              rw [← hnode]
              exact splitNodeO_setChild_child b _ hlt _
            rw [hbox, ih fuel (by omega)]
            rfl
        rw [hstep2, foldl_bind_none]

/-- C4 (code bug): `OctreeSearch::insertRecursive` in `octree_search.h` has
no depth ceiling (`maxDepth` there is only an observed statistic), so with
split threshold 1 inserting the same record twice recurses forever — for
every fuel bound the fueled embedding fails, i.e. the insertion never
terminates, contradicting the claim that `maxDepth` caps subdivision and
that insert always succeeds. -/
theorem octree_insert_unbounded_recursion :
    ∀ fuel : Nat, buildOctree fuel 1 [imgOctDup, imgOctDup] = none := by
  intro fuel
  rw [buildOctree, List.foldl_cons, Option.some_bind]
  cases hfirst : insertO 1 fuel emptyOctree imgOctDup with
  | none => rw [foldl_bind_none]
  | some m =>
    have hm : m = ONode.leaf rootBoxO [imgOctDup] := by
      match fuel with
      | 0 => cases hfirst
      | fuel + 1 =>
        rw [emptyOctree, insertO] at hfirst
        simp only [List.nil_append, List.length_singleton] at hfirst
        rw [if_neg (by omega)] at hfirst
        exact (Option.some.injEq _ _ ▸ hfirst).symm
    subst hm
    rw [List.foldl_cons, Option.some_bind, insertO_dup_none fuel rootBoxO,
      foldl_bind_none]

theorem QNode.size_pos (n : QNode) : 0 < n.size := by
  cases n <;> simp [QNode.size]

/-! ### Quadtree structural lemmas -/

theorem getChildIndexQ_lt (b : Box2) (img : Image) : getChildIndexQ b img < 4 := by
  rw [getChildIndexQ]
  split <;> split <;> omega

theorem childBoxQ_ordered (b : Box2) (hb : b.ordered) (i : Nat) :
    (childBoxQ b i).ordered := by
  obtain ⟨h1, h2⟩ := hb
  rw [childBoxQ]
  split
  · exact ⟨by simp [Box2.midR]; linarith, by simp [Box2.midG]; linarith⟩
  all_goals split
  all_goals try split
  all_goals
    refine ⟨?_, ?_⟩ <;> simp [Box2.midR, Box2.midG] <;> linarith

theorem inBox2_childBoxQ_getChildIndexQ (b : Box2) (img : Image)
    (hb : b.ordered) (h : inBox2 b img) :
    inBox2 (childBoxQ b (getChildIndexQ b img)) img := by
  obtain ⟨hb1, hb2⟩ := hb
  obtain ⟨h1, h2, h3, h4⟩ := h
  rw [getChildIndexQ]
  by_cases c1 : b.midR ≤ img.r <;> by_cases c2 : b.midG ≤ img.g <;>
    simp only [c1, c2, if_true, if_false, ite_true, ite_false] <;>
    norm_num [childBoxQ, inBox2] <;>
    simp only [Box2.midR, Box2.midG] at c1 c2 ⊢ <;>
    refine ⟨by linarith, by linarith, by linarith, by linarith⟩

theorem inBox2_of_childBoxQ (b : Box2) (hb : b.ordered) (i : Nat) (x : Image)
    (h : inBox2 (childBoxQ b i) x) : inBox2 b x := by
  obtain ⟨hb1, hb2⟩ := hb
  rw [childBoxQ] at h
  split at h
  all_goals try split at h
  all_goals try split at h
  all_goals
    obtain ⟨h1, h2, h3, h4⟩ := h
  all_goals
    simp only [Box2.midR, Box2.midG] at h1 h2 h3 h4
  all_goals
    refine ⟨by linarith, by linarith, by linarith, by linarith⟩

/-- The 2-axis box bound is below the full 3-axis distance for any point in
the rectangle. -/
theorem minDistSqQ_le_sqDist (b : Box2) (q x : Image) (h : inBox2 b x) :
    minDistSqQ b q ≤ sqDist q x := by
  obtain ⟨h1, h2, h3, h4⟩ := h
  have gr : axisGapSq q.r b.minR b.maxR ≤ (q.r - x.r) * (q.r - x.r) := by
    rw [axisGapSq]
    split
    · nlinarith
    · split
      · nlinarith
      · nlinarith [sq_nonneg (q.r - x.r)]
  have gg : axisGapSq q.g b.minG b.maxG ≤ (q.g - x.g) * (q.g - x.g) := by
    rw [axisGapSq]
    split
    · nlinarith
    · split
      · nlinarith
      · nlinarith [sq_nonneg (q.g - x.g)]
  rw [minDistSqQ, sqDist]
  nlinarith [sq_nonneg (q.b - x.b)]

theorem child_node_evalQ0 (b : Box2) (c0 c1 c2 c3 : QNode) :
    (QNode.node b c0 c1 c2 c3).child 0 = c0 := rfl
theorem child_node_evalQ1 (b : Box2) (c0 c1 c2 c3 : QNode) :
    (QNode.node b c0 c1 c2 c3).child 1 = c1 := rfl
theorem child_node_evalQ2 (b : Box2) (c0 c1 c2 c3 : QNode) :
    (QNode.node b c0 c1 c2 c3).child 2 = c2 := rfl
theorem child_node_evalQ3 (b : Box2) (c0 c1 c2 c3 : QNode) :
    (QNode.node b c0 c1 c2 c3).child 3 = c3 := rfl
theorem setChild_node_evalQ0 (b : Box2) (c0 c1 c2 c3 c : QNode) :
    (QNode.node b c0 c1 c2 c3).setChild 0 c = QNode.node b c c1 c2 c3 := rfl
theorem setChild_node_evalQ1 (b : Box2) (c0 c1 c2 c3 c : QNode) :
    (QNode.node b c0 c1 c2 c3).setChild 1 c = QNode.node b c0 c c2 c3 := rfl
theorem setChild_node_evalQ2 (b : Box2) (c0 c1 c2 c3 c : QNode) :
    (QNode.node b c0 c1 c2 c3).setChild 2 c = QNode.node b c0 c1 c c3 := rfl
theorem setChild_node_evalQ3 (b : Box2) (c0 c1 c2 c3 c : QNode) :
    (QNode.node b c0 c1 c2 c3).setChild 3 c = QNode.node b c0 c1 c2 c := rfl

theorem ShapeQ_ordered (n : QNode) (h : ShapeQ n) : n.box.ordered := by
  cases n with
  | leaf b imgs => exact h
  | node b c0 c1 c2 c3 => exact h.1

theorem ShapeQ_splitNodeQ (b : Box2) (hb : b.ordered) : ShapeQ (splitNodeQ b) := by
  rw [splitNodeQ, ShapeQ]
  exact ⟨hb, ⟨rfl, childBoxQ_ordered b hb 0⟩, ⟨rfl, childBoxQ_ordered b hb 1⟩,
    ⟨rfl, childBoxQ_ordered b hb 2⟩, ⟨rfl, childBoxQ_ordered b hb 3⟩⟩

theorem GoodAt_inBox (x : Image) (n : QNode) (h : GoodAt x n) : inBox2 n.box x := by
  cases h with
  | leaf b imgs h1 h2 => exact h1
  | node b c0 c1 c2 c3 i hi h1 h2 => exact h1

theorem child_node_evalQelse (b : Box2) (c0 c1 c2 c3 : QNode) (i : Nat)
    (h0 : i ≠ 0) (h1 : i ≠ 1) (h2 : i ≠ 2) :
    (QNode.node b c0 c1 c2 c3).child i = c3 := by
  rw [QNode.child]
  simp [h0, h1, h2]

theorem setChild_node_evalQelse (b : Box2) (c0 c1 c2 c3 c : QNode) (i : Nat)
    (h0 : i ≠ 0) (h1 : i ≠ 1) (h2 : i ≠ 2) :
    (QNode.node b c0 c1 c2 c3).setChild i c = QNode.node b c0 c1 c2 c := by
  rw [QNode.setChild]
  simp [h0, h1, h2]

theorem PathOk_lookup (x : Image) :
    ∀ (p : List Nat) (t : QNode), PathOk x p t →
      ∃ s, lookupQ p t = some s ∧ inBox2 s.box x := by
  intro p
  induction p with
  | nil =>
    intro t h
    exact ⟨t, rfl, h⟩
  | cons i p ih =>
    intro t h
    cases t with
    | leaf b imgs => exact absurd h (by rw [PathOk]; exact not_false)
    | node b c0 c1 c2 c3 =>
      rw [PathOk] at h
      obtain ⟨hb, hi, hp⟩ := h
      obtain ⟨s, hs, hbox⟩ := ih _ hp
      exact ⟨s, by rw [lookupQ]; exact hs, hbox⟩

theorem lookupQ_allImages (x : Image) :
    ∀ (p : List Nat) (t s : QNode), lookupQ p t = some s →
      x ∈ allImagesQ s → x ∈ allImagesQ t := by
  intro p
  induction p with
  | nil =>
    intro t s h hx
    rw [lookupQ, Option.some.injEq] at h
    exact h ▸ hx
  | cons i p ih =>
    intro t s h hx
    cases t with
    | leaf b imgs => cases h
    | node b c0 c1 c2 c3 =>
      rw [lookupQ] at h
      have hmem := ih _ _ h hx
      rw [allImagesQ]
      simp only [List.mem_append]
      by_cases h0 : i = 0
      · subst h0
        rw [child_node_evalQ0] at hmem
        exact Or.inl (Or.inl (Or.inl hmem))
      · by_cases h1 : i = 1
        · subst h1
          rw [child_node_evalQ1] at hmem
          exact Or.inl (Or.inl (Or.inr hmem))
        · by_cases h2 : i = 2
          · subst h2
            rw [child_node_evalQ2] at hmem
            exact Or.inl (Or.inr hmem)
          · rw [child_node_evalQelse b c0 c1 c2 c3 i h0 h1 h2] at hmem
            exact Or.inr hmem

theorem lookupQ_ShapeQ :
    ∀ (p : List Nat) (t s : QNode), lookupQ p t = some s → ShapeQ t → ShapeQ s := by
  intro p
  induction p with
  | nil =>
    intro t s h ht
    rw [lookupQ, Option.some.injEq] at h
    exact h ▸ ht
  | cons i p ih =>
    intro t s h ht
    cases t with
    | leaf b imgs => cases h
    | node b c0 c1 c2 c3 =>
      rw [lookupQ] at h
      refine ih _ _ h ?_
      rw [ShapeQ] at ht
      by_cases h0 : i = 0
      · subst h0; rw [child_node_evalQ0]; exact ht.2.1.2
      · by_cases h1 : i = 1
        · subst h1; rw [child_node_evalQ1]; exact ht.2.2.1.2
        · by_cases h2 : i = 2
          · subst h2; rw [child_node_evalQ2]; exact ht.2.2.2.1.2
          · rw [child_node_evalQelse b c0 c1 c2 c3 i h0 h1 h2]; exact ht.2.2.2.2.2

theorem updateQ_box :
    ∀ (p : List Nat) (t s' : QNode), p ≠ [] → (updateQ p t s').box = t.box := by
  intro p
  induction p with
  | nil => intro t s' h; exact absurd rfl h
  | cons i p _ =>
    intro t s' _
    cases t with
    | leaf b imgs => rw [updateQ]
    | node b c0 c1 c2 c3 =>
      rw [updateQ, QNode.setChild]
      split
      · rfl
      · split
        · rfl
        · split
          · rfl
          · rfl

theorem updateQ_allImages (x : Image) :
    ∀ (p : List Nat) (t s' : QNode),
      x ∈ allImagesQ (updateQ p t s') → x ∈ allImagesQ t ∨ x ∈ allImagesQ s' := by
  intro p
  induction p with
  | nil =>
    intro t s' hx
    rw [updateQ] at hx
    exact Or.inr hx
  | cons i p ih =>
    intro t s' hx
    cases t with
    | leaf b imgs =>
      rw [updateQ] at hx
      exact Or.inl hx
    | node b c0 c1 c2 c3 =>
      rw [updateQ] at hx
      by_cases h0 : i = 0
      · subst h0
        rw [child_node_evalQ0, setChild_node_evalQ0] at hx
        rw [allImagesQ] at hx ⊢
        simp only [List.mem_append] at hx ⊢
        rcases hx with ((hx | hx) | hx) | hx
        · rcases ih _ _ hx with h | h
          · exact Or.inl (Or.inl (Or.inl (Or.inl h)))
          · exact Or.inr h
        · exact Or.inl (Or.inl (Or.inl (Or.inr hx)))
        · exact Or.inl (Or.inl (Or.inr hx))
        · exact Or.inl (Or.inr hx)
      · by_cases h1 : i = 1
        · subst h1
          rw [child_node_evalQ1, setChild_node_evalQ1] at hx
          rw [allImagesQ] at hx ⊢
          simp only [List.mem_append] at hx ⊢
          rcases hx with ((hx | hx) | hx) | hx
          · exact Or.inl (Or.inl (Or.inl (Or.inl hx)))
          · rcases ih _ _ hx with h | h
            · exact Or.inl (Or.inl (Or.inl (Or.inr h)))
            · exact Or.inr h
          · exact Or.inl (Or.inl (Or.inr hx))
          · exact Or.inl (Or.inr hx)
        · by_cases h2 : i = 2
          · subst h2
            rw [child_node_evalQ2, setChild_node_evalQ2] at hx
            rw [allImagesQ] at hx ⊢
            simp only [List.mem_append] at hx ⊢
            rcases hx with ((hx | hx) | hx) | hx
            · exact Or.inl (Or.inl (Or.inl (Or.inl hx)))
            · exact Or.inl (Or.inl (Or.inl (Or.inr hx)))
            · rcases ih _ _ hx with h | h
              · exact Or.inl (Or.inl (Or.inr h))
              · exact Or.inr h
            · exact Or.inl (Or.inr hx)
          · rw [child_node_evalQelse b c0 c1 c2 c3 i h0 h1 h2,
              setChild_node_evalQelse b c0 c1 c2 c3 _ i h0 h1 h2] at hx
            rw [allImagesQ] at hx ⊢
            simp only [List.mem_append] at hx ⊢
            rcases hx with ((hx | hx) | hx) | hx
            · exact Or.inl (Or.inl (Or.inl (Or.inl hx)))
            · exact Or.inl (Or.inl (Or.inl (Or.inr hx)))
            · exact Or.inl (Or.inl (Or.inr hx))
            · rcases ih _ _ hx with h | h
              · exact Or.inl (Or.inr h)
              · exact Or.inr h

theorem setChild_box_Q (b : Box2) (c0 c1 c2 c3 c : QNode) (i : Nat) :
    ((QNode.node b c0 c1 c2 c3).setChild i c).box = b := by
  rw [QNode.setChild]
  split
  · rfl
  · split
    · rfl
    · split
      · rfl
      · rfl

theorem child_setChild_Q (b : Box2) (c0 c1 c2 c3 c : QNode) (i j : Nat)
    (hi : i < 4) (hj : j < 4) (hji : j ≠ i) :
    ((QNode.node b c0 c1 c2 c3).setChild i c).child j =
      (QNode.node b c0 c1 c2 c3).child j := by
  have h4 : i = 0 ∨ i = 1 ∨ i = 2 ∨ i = 3 := by omega
  have hj4 : j = 0 ∨ j = 1 ∨ j = 2 ∨ j = 3 := by omega
  rcases h4 with rfl | rfl | rfl | rfl <;>
    [rw [setChild_node_evalQ0]; rw [setChild_node_evalQ1]; rw [setChild_node_evalQ2];
     rw [setChild_node_evalQ3]] <;>
    rcases hj4 with rfl | rfl | rfl | rfl <;>
    first
    | exact absurd rfl hji
    | rfl

theorem child_setChild_same_Q (b : Box2) (c0 c1 c2 c3 c : QNode) (i : Nat)
    (hi : i < 4) :
    ((QNode.node b c0 c1 c2 c3).setChild i c).child i = c := by
  have h : i = 0 ∨ i = 1 ∨ i = 2 ∨ i = 3 := by omega
  rcases h with rfl | rfl | rfl | rfl <;> rfl

theorem GoodAt_setChild (x : Image) (b : Box2) (c0 c1 c2 c3 c : QNode) (i : Nat)
    (hi : i < 4) (hbox : inBox2 b x) (hgood : GoodAt x c) :
    GoodAt x ((QNode.node b c0 c1 c2 c3).setChild i c) := by
  have h4 : i = 0 ∨ i = 1 ∨ i = 2 ∨ i = 3 := by omega
  rcases h4 with rfl | rfl | rfl | rfl
  · rw [setChild_node_evalQ0]
    exact GoodAt.node b c c1 c2 c3 0 (by omega) hbox (by rwa [child_node_evalQ0])
  · rw [setChild_node_evalQ1]
    exact GoodAt.node b c0 c c2 c3 1 (by omega) hbox (by rwa [child_node_evalQ1])
  · rw [setChild_node_evalQ2]
    exact GoodAt.node b c0 c1 c c3 2 (by omega) hbox (by rwa [child_node_evalQ2])
  · rw [setChild_node_evalQ3]
    exact GoodAt.node b c0 c1 c2 c 3 (by omega) hbox (by rwa [child_node_evalQ3])

theorem GoodAt_setChild_other (x : Image) (b : Box2) (c0 c1 c2 c3 c : QNode)
    (i j : Nat) (hi : i < 4) (hj : j < 4) (hji : j ≠ i) (hbox : inBox2 b x)
    (hgood : GoodAt x ((QNode.node b c0 c1 c2 c3).child j)) :
    GoodAt x ((QNode.node b c0 c1 c2 c3).setChild i c) := by
  have hch := child_setChild_Q b c0 c1 c2 c3 c i j hi hj hji
  have h4 : i = 0 ∨ i = 1 ∨ i = 2 ∨ i = 3 := by omega
  rcases h4 with rfl | rfl | rfl | rfl
  · rw [setChild_node_evalQ0] at hch ⊢
    exact GoodAt.node b c c1 c2 c3 j hj hbox (by rwa [hch])
  · rw [setChild_node_evalQ1] at hch ⊢
    exact GoodAt.node b c0 c c2 c3 j hj hbox (by rwa [hch])
  · rw [setChild_node_evalQ2] at hch ⊢
    exact GoodAt.node b c0 c1 c c3 j hj hbox (by rwa [hch])
  · rw [setChild_node_evalQ3] at hch ⊢
    exact GoodAt.node b c0 c1 c2 c j hj hbox (by rwa [hch])

theorem updateQ_GoodAt_target (x : Image) :
    ∀ (p : List Nat) (t s' : QNode), PathOk x p t → GoodAt x s' →
      GoodAt x (updateQ p t s') := by
  intro p
  induction p with
  | nil =>
    intro t s' _ hg
    rw [updateQ]
    exact hg
  | cons i p ih =>
    intro t s' hp hg
    cases t with
    | leaf b imgs => exact absurd hp (by rw [PathOk]; exact not_false)
    | node b c0 c1 c2 c3 =>
      rw [PathOk] at hp
      obtain ⟨hbox, hi, hp⟩ := hp
      rw [updateQ]
      exact GoodAt_setChild x b c0 c1 c2 c3 _ i hi hbox (ih _ _ hp hg)

theorem updateQ_GoodAt_pres (z : Image) :
    ∀ (p : List Nat) (t s s' : QNode), ValidPath p → lookupQ p t = some s →
      (GoodAt z s → GoodAt z s') → GoodAt z t → GoodAt z (updateQ p t s') := by
  intro p
  induction p with
  | nil =>
    intro t s s' _ hl himpl hg
    rw [lookupQ, Option.some.injEq] at hl
    rw [updateQ]
    exact himpl (hl ▸ hg)
  | cons i p ih =>
    intro t s s' hv hl himpl hg
    have hi4 : i < 4 := hv i (List.mem_cons_self i p)
    have hv' : ValidPath p := fun k hk => hv k (List.mem_cons_of_mem i hk)
    cases t with
    | leaf b imgs => cases hl
    | node b c0 c1 c2 c3 =>
      rw [lookupQ] at hl
      rw [updateQ]
      cases hg with
      | node _ _ _ _ _ j hj hbox hgood =>
        by_cases hji : j = i
        · subst hji
          exact GoodAt_setChild z b c0 c1 c2 c3 _ j hj hbox (ih _ _ _ hv' hl himpl hgood)
        · exact GoodAt_setChild_other z b c0 c1 c2 c3 _ i j hi4 hj hji hbox hgood

theorem updateQ_PathOk (x : Image) :
    ∀ (pw p : List Nat) (t : QNode) (bb : Box2) (imgs : List Image) (s' : QNode),
      PathOk x pw t → ValidPath p → lookupQ p t = some (QNode.leaf bb imgs) →
      s'.box = bb → PathOk x pw (updateQ p t s') := by
  intro pw
  induction pw with
  | nil =>
    intro p t bb imgs s' hp _ hl hbox
    cases p with
    | nil =>
      rw [lookupQ, Option.some.injEq] at hl
      rw [updateQ]
      rw [PathOk] at hp ⊢
      rw [hbox]
      rw [hl] at hp
      exact hp
    | cons i p' =>
      rw [PathOk] at hp ⊢
      rwa [updateQ_box (i :: p') t s' (by simp)]
  | cons j pw' ih =>
    intro p t bb imgs s' hp hv hl hbox
    cases t with
    | leaf b0 imgs0 => exact absurd hp (by rw [PathOk]; exact not_false)
    | node b c0 c1 c2 c3 =>
      rw [PathOk] at hp
      obtain ⟨hbx, hj, hp'⟩ := hp
      cases p with
      | nil =>
        rw [lookupQ] at hl
        cases hl
      | cons i p' =>
        have hi4 : i < 4 := hv i (List.mem_cons_self i p')
        have hv' : ValidPath p' := fun k hk => hv k (List.mem_cons_of_mem i hk)
        rw [lookupQ] at hl
        rw [updateQ]
        have h4 : i = 0 ∨ i = 1 ∨ i = 2 ∨ i = 3 := by omega
        by_cases hji : j = i
        · subst hji
          rcases h4 with rfl | rfl | rfl | rfl <;>
            [rw [setChild_node_evalQ0]; rw [setChild_node_evalQ1];
             rw [setChild_node_evalQ2]; rw [setChild_node_evalQ3]] <;>
            rw [PathOk] <;>
            refine ⟨hbx, hj, ?_⟩
          · rw [child_node_evalQ0]
            rw [child_node_evalQ0] at hl hp'
            exact ih p' c0 bb imgs s' hp' hv' hl hbox
          · rw [child_node_evalQ1]
            rw [child_node_evalQ1] at hl hp'
            exact ih p' c1 bb imgs s' hp' hv' hl hbox
          · rw [child_node_evalQ2]
            rw [child_node_evalQ2] at hl hp'
            exact ih p' c2 bb imgs s' hp' hv' hl hbox
          · rw [child_node_evalQ3]
            rw [child_node_evalQ3] at hl hp'
            exact ih p' c3 bb imgs s' hp' hv' hl hbox
        · have hch := child_setChild_Q b c0 c1 c2 c3
            (updateQ p' ((QNode.node b c0 c1 c2 c3).child i) s') i j hi4 hj hji
          rcases h4 with rfl | rfl | rfl | rfl <;>
            [rw [setChild_node_evalQ0] at hch ⊢; rw [setChild_node_evalQ1] at hch ⊢;
             rw [setChild_node_evalQ2] at hch ⊢; rw [setChild_node_evalQ3] at hch ⊢] <;>
            rw [PathOk] <;>
            exact ⟨hbx, hj, by rw [hch]; exact hp'⟩
theorem foldAppend_char (b : Box2) :
    ∀ (l : List Image) (b0 b1 b2 b3 : Box2) (l0 l1 l2 l3 : List Image),
      l.foldl (fun acc x => appendAtChild acc (getChildIndexQ b x) x)
        (QNode.node b (.leaf b0 l0) (.leaf b1 l1) (.leaf b2 l2) (.leaf b3 l3)) =
      QNode.node b
        (.leaf b0 (l0 ++ l.filter (fun x => getChildIndexQ b x == 0)))
        (.leaf b1 (l1 ++ l.filter (fun x => getChildIndexQ b x == 1)))
        (.leaf b2 (l2 ++ l.filter (fun x => getChildIndexQ b x == 2)))
        (.leaf b3 (l3 ++ l.filter (fun x => getChildIndexQ b x == 3))) := by
  intro l
  induction l with
  | nil =>
    intro b0 b1 b2 b3 l0 l1 l2 l3
    simp [List.foldl_nil, List.filter_nil]
  | cons x l ih =>
    intro b0 b1 b2 b3 l0 l1 l2 l3
    rw [List.foldl_cons]
    have hlt := getChildIndexQ_lt b x
    have h4 : getChildIndexQ b x = 0 ∨ getChildIndexQ b x = 1 ∨
        getChildIndexQ b x = 2 ∨ getChildIndexQ b x = 3 := by omega
    rcases h4 with hg | hg | hg | hg
    · have hstep : appendAtChild
          (QNode.node b (.leaf b0 l0) (.leaf b1 l1) (.leaf b2 l2) (.leaf b3 l3))
          (getChildIndexQ b x) x =
          QNode.node b (.leaf b0 (l0 ++ [x])) (.leaf b1 l1) (.leaf b2 l2) (.leaf b3 l3) := by
        rw [appendAtChild, hg]
        rfl
      rw [hstep, ih]
      simp [List.filter_cons, hg, List.append_assoc]
    · have hstep : appendAtChild
          (QNode.node b (.leaf b0 l0) (.leaf b1 l1) (.leaf b2 l2) (.leaf b3 l3))
          (getChildIndexQ b x) x =
          QNode.node b (.leaf b0 l0) (.leaf b1 (l1 ++ [x])) (.leaf b2 l2) (.leaf b3 l3) := by
        rw [appendAtChild, hg]
        rfl
      rw [hstep, ih]
      simp [List.filter_cons, hg, List.append_assoc]
    · have hstep : appendAtChild
          (QNode.node b (.leaf b0 l0) (.leaf b1 l1) (.leaf b2 l2) (.leaf b3 l3))
          (getChildIndexQ b x) x =
          QNode.node b (.leaf b0 l0) (.leaf b1 l1) (.leaf b2 (l2 ++ [x])) (.leaf b3 l3) := by
        rw [appendAtChild, hg]
        rfl
      rw [hstep, ih]
      simp [List.filter_cons, hg, List.append_assoc]
    · have hstep : appendAtChild
          (QNode.node b (.leaf b0 l0) (.leaf b1 l1) (.leaf b2 l2) (.leaf b3 l3))
          (getChildIndexQ b x) x =
          QNode.node b (.leaf b0 l0) (.leaf b1 l1) (.leaf b2 l2) (.leaf b3 (l3 ++ [x])) := by
        rw [appendAtChild, hg]
        rfl
      rw [hstep, ih]
      simp [List.filter_cons, hg, List.append_assoc]
theorem redistributeQ_eq (b : Box2) (l : List Image) :
    redistributeQ b l =
      QNode.node b
        (.leaf (childBoxQ b 0) (l.filter (fun x => getChildIndexQ b x == 0)))
        (.leaf (childBoxQ b 1) (l.filter (fun x => getChildIndexQ b x == 1)))
        (.leaf (childBoxQ b 2) (l.filter (fun x => getChildIndexQ b x == 2)))
        (.leaf (childBoxQ b 3) (l.filter (fun x => getChildIndexQ b x == 3))) := by
  rw [redistributeQ, splitNodeQ, foldAppend_char]
  simp [List.nil_append]

theorem redistributeQ_box (b : Box2) (l : List Image) :
    (redistributeQ b l).box = b := by
  rw [redistributeQ_eq]
  rfl

theorem redistributeQ_isNode (b : Box2) (l : List Image) :
    (redistributeQ b l).isNodeB = true := by
  rw [redistributeQ_eq]
  rfl

theorem ShapeQ_redistributeQ (b : Box2) (hb : b.ordered) (l : List Image) :
    ShapeQ (redistributeQ b l) := by
  rw [redistributeQ_eq, ShapeQ]
  exact ⟨hb, ⟨rfl, childBoxQ_ordered b hb 0⟩, ⟨rfl, childBoxQ_ordered b hb 1⟩,
    ⟨rfl, childBoxQ_ordered b hb 2⟩, ⟨rfl, childBoxQ_ordered b hb 3⟩⟩

theorem mem_redistributeQ (b : Box2) (l : List Image) (x : Image)
    (h : x ∈ allImagesQ (redistributeQ b l)) : x ∈ l := by
  rw [redistributeQ_eq, allImagesQ] at h
  simp only [allImagesQ, List.mem_append] at h
  rcases h with ((h | h) | h) | h <;> exact (List.mem_filter.1 h).1

theorem GoodAt_redistributeQ (b : Box2) (z : Image) (hb : b.ordered)
    (hz : z ∈ l) (hbox : inBox2 b z) : GoodAt z (redistributeQ b l) := by
  rw [redistributeQ_eq]
  have hlt := getChildIndexQ_lt b z
  have hcb := inBox2_childBoxQ_getChildIndexQ b z hb hbox
  refine GoodAt.node b _ _ _ _ (getChildIndexQ b z) hlt hbox ?_
  have h4 : getChildIndexQ b z = 0 ∨ getChildIndexQ b z = 1 ∨
      getChildIndexQ b z = 2 ∨ getChildIndexQ b z = 3 := by omega
  rcases h4 with hg | hg | hg | hg <;> rw [hg] <;> rw [hg] at hcb <;>
    [rw [child_node_evalQ0]; rw [child_node_evalQ1]; rw [child_node_evalQ2];
     rw [child_node_evalQ3]] <;>
    exact GoodAt.leaf _ _ hcb (List.mem_filter.2 ⟨hz, by simp [hg]⟩)
theorem ShapeQ_child (b : Box2) (c0 c1 c2 c3 : QNode)
    (h : ShapeQ (QNode.node b c0 c1 c2 c3)) (i : Nat) (hi : i < 4) :
    ((QNode.node b c0 c1 c2 c3).child i).box = childBoxQ b i ∧
      ShapeQ ((QNode.node b c0 c1 c2 c3).child i) := by
  rw [ShapeQ] at h
  have h4 : i = 0 ∨ i = 1 ∨ i = 2 ∨ i = 3 := by omega
  rcases h4 with rfl | rfl | rfl | rfl
  · rw [child_node_evalQ0]; exact h.2.1
  · rw [child_node_evalQ1]; exact h.2.2.1
  · rw [child_node_evalQ2]; exact h.2.2.2.1
  · rw [child_node_evalQ3]; exact h.2.2.2.2

theorem updateQ_ctor :
    ∀ (p : List Nat) (t s' : QNode), p ≠ [] →
      (updateQ p t s').isNodeB = t.isNodeB := by
  intro p
  induction p with
  | nil => intro t s' h; exact absurd rfl h
  | cons i p _ =>
    intro t s' _
    cases t with
    | leaf b imgs => rw [updateQ]
    | node b c0 c1 c2 c3 =>
      rw [updateQ, QNode.setChild]
      split
      · rfl
      · split
        · rfl
        · split
          · rfl
          · rfl

theorem updateQ_ShapeQ :
    ∀ (p : List Nat) (t s s' : QNode), ShapeQ t → lookupQ p t = some s →
      s'.box = s.box → ShapeQ s' → ShapeQ (updateQ p t s') := by
  intro p
  induction p with
  | nil =>
    intro t s s' _ hl _ hs'
    rw [lookupQ, Option.some.injEq] at hl
    rw [updateQ]
    exact hs'
  | cons i p ih =>
    intro t s s' ht hl hbox hs'
    cases t with
    | leaf b imgs => cases hl
    | node b c0 c1 c2 c3 =>
      rw [lookupQ] at hl
      rw [updateQ]
      rw [ShapeQ] at ht
      obtain ⟨hb, h0, h1, h2, h3⟩ := ht
      have hbx : ∀ c, lookupQ p c = some s →
          (updateQ p c s').box = c.box := by
        intro c hlc
        cases p with
        | nil =>
          rw [lookupQ, Option.some.injEq] at hlc
          rw [updateQ, hbox, ← hlc]
        | cons j p' => exact updateQ_box (j :: p') c s' (by simp)
      by_cases hi0 : i = 0
      · subst hi0
        rw [child_node_evalQ0] at hl ⊢
        rw [setChild_node_evalQ0, ShapeQ]
        exact ⟨hb, ⟨by rw [hbx c0 hl]; exact h0.1, ih _ _ _ h0.2 hl hbox hs'⟩, h1, h2, h3⟩
      · by_cases hi1 : i = 1
        · subst hi1
          rw [child_node_evalQ1] at hl ⊢
          rw [setChild_node_evalQ1, ShapeQ]
          exact ⟨hb, h0, ⟨by rw [hbx c1 hl]; exact h1.1, ih _ _ _ h1.2 hl hbox hs'⟩, h2, h3⟩
        · by_cases hi2 : i = 2
          · subst hi2
            rw [child_node_evalQ2] at hl ⊢
            rw [setChild_node_evalQ2, ShapeQ]
            exact ⟨hb, h0, h1, ⟨by rw [hbx c2 hl]; exact h2.1, ih _ _ _ h2.2 hl hbox hs'⟩, h3⟩
          · rw [child_node_evalQelse b c0 c1 c2 c3 i hi0 hi1 hi2] at hl ⊢
            rw [setChild_node_evalQelse b c0 c1 c2 c3 _ i hi0 hi1 hi2, ShapeQ]
            exact ⟨hb, h0, h1, h2, ⟨by rw [hbx c3 hl]; exact h3.1, ih _ _ _ h3.2 hl hbox hs'⟩⟩

theorem PathOk_extend (x : Image) :
    ∀ (p : List Nat) (t : QNode) (bb : Box2) (c0 c1 c2 c3 : QNode) (g : Nat),
      PathOk x p t → lookupQ p t = some (QNode.node bb c0 c1 c2 c3) → g < 4 →
      inBox2 ((QNode.node bb c0 c1 c2 c3).child g).box x →
      PathOk x (p ++ [g]) t := by
  intro p
  induction p with
  | nil =>
    intro t bb c0 c1 c2 c3 g hp hl hg hcb
    rw [lookupQ, Option.some.injEq] at hl
    subst hl
    rw [List.nil_append, PathOk]
    exact ⟨hp, hg, hcb⟩
  | cons i p ih =>
    intro t bb c0 c1 c2 c3 g hp hl hg hcb
    cases t with
    | leaf b0 imgs0 => exact absurd hp (by rw [PathOk]; exact not_false)
    | node b d0 d1 d2 d3 =>
      rw [PathOk] at hp
      obtain ⟨hbx, hi, hp'⟩ := hp
      rw [lookupQ] at hl
      rw [List.cons_append, PathOk]
      exact ⟨hbx, hi, ih _ _ _ _ _ _ _ hp' hl hg hcb⟩
theorem mem_foldl_cons {α β : Type} (f : α → β) :
    ∀ (l : List α) (init : List β) (e : β),
      e ∈ l.foldl (fun acc x => f x :: acc) init →
      e ∈ init ∨ ∃ x ∈ l, e = f x := by
  intro l
  induction l with
  | nil => intro init e h; exact Or.inl h
  | cons x l ih =>
    intro init e h
    rw [List.foldl_cons] at h
    rcases ih _ _ h with h' | ⟨y, hy, he⟩
    · rcases List.mem_cons.1 h' with he | he
      · exact Or.inr ⟨x, List.mem_cons_self x l, he⟩
      · exact Or.inl he
    · exact Or.inr ⟨y, List.mem_cons_of_mem x hy, he⟩
/-- Master invariant of the `insertIntoChild` stack loop: the subtree root
keeps its box, constructor and shape; contents only gain copies of `img`;
good placements are preserved; and if some stack entry's path leads to the
record through containing boxes (or the record is already well placed), the
final tree places the record well. -/
theorem insertIntoChildLoop_spec (thr : Nat) (img : Image) :
    ∀ (fuel : Nat) (t t' : QNode) (st : List (List Nat × Nat)),
      insertIntoChildLoop thr img fuel t st = some t' →
      ShapeQ t →
      (∀ e ∈ st, ValidPath e.1 ∧ e.1 ≠ []) →
      t'.box = t.box ∧ t'.isNodeB = t.isNodeB ∧ ShapeQ t' ∧
      (∀ x, x ∈ allImagesQ t' → x ∈ allImagesQ t ∨ x = img) ∧
      (∀ z, GoodAt z t → GoodAt z t') ∧
      ((GoodAt img t ∨ ∃ e ∈ st, PathOk img e.1 t) → GoodAt img t') := by
  intro fuel
  induction fuel with
  | zero =>
    intro t t' st h _ _
    rw [insertIntoChildLoop] at h
    cases h
  | succ fuel ih =>
    intro t t' st h ht hst
    cases st with
    | nil =>
      rw [insertIntoChildLoop, Option.some.injEq] at h
      subst h
      refine ⟨rfl, rfl, ht, fun x hx => Or.inl hx, fun z hz => hz, ?_⟩
      rintro (hg | ⟨e, he, _⟩)
      · exact hg
      · cases he
    | cons e rest =>
      obtain ⟨p, d⟩ := e
      obtain ⟨hvp, hne⟩ := hst (p, d) (List.mem_cons_self _ _)
      rw [insertIntoChildLoop] at h
      cases hlook : lookupQ p t with
      | none => rw [hlook] at h; cases h
      | some s =>
        rw [hlook] at h
        cases s with
        | leaf bb li =>
          have hShapeS : ShapeQ (QNode.leaf bb li) := lookupQ_ShapeQ p t _ hlook ht
          have hbord : bb.ordered := hShapeS
          simp only at h
          split at h
          case isTrue hcond =>
            have hre : (li ++ [img]).foldl
                (fun acc x => appendAtChild acc (getChildIndexQ bb x) x)
                (splitNodeQ bb) = redistributeQ bb (li ++ [img]) := rfl
            rw [hre] at h
            have hshape' : ShapeQ (updateQ p t (redistributeQ bb (li ++ [img]))) :=
              updateQ_ShapeQ p t _ _ ht hlook (redistributeQ_box bb _) 
                (ShapeQ_redistributeQ bb hbord _)
            have hstack' : ∀ e ∈ ((li ++ [img]).foldl
                (fun acc x => (p ++ [getChildIndexQ bb x], d + 1) :: acc) []) ++ rest,
                ValidPath e.1 ∧ e.1 ≠ [] := by
              intro e he
              rcases List.mem_append.1 he with he | he
              · rcases mem_foldl_cons _ _ _ _ he with he' | ⟨x, _, he'⟩
                · cases he'
                · subst he'
                  constructor
                  · intro k hk
                    rcases List.mem_append.1 hk with hk | hk
                    · exact hvp k hk
                    · rw [List.mem_singleton.1 hk]
                      exact getChildIndexQ_lt bb x
                  · simp
              · exact hst e (List.mem_cons_of_mem _ he)
            obtain ⟨hbx', hctor', hsh', hcont', hpres', hest'⟩ :=
              ih _ t' _ h hshape' hstack'
            have hbxu : (updateQ p t (redistributeQ bb (li ++ [img]))).box = t.box :=
              updateQ_box p t _ hne
            have hctoru : (updateQ p t (redistributeQ bb (li ++ [img]))).isNodeB
                = t.isNodeB := updateQ_ctor p t _ hne
            have himpl : ∀ z, GoodAt z (QNode.leaf bb li) →
                GoodAt z (redistributeQ bb (li ++ [img])) := by
              intro z hz
              cases hz with
              | leaf _ _ hin hmem =>
                exact GoodAt_redistributeQ bb z hbord
                  (List.mem_append.2 (Or.inl hmem)) hin
            have hpresStep : ∀ z, GoodAt z t →
                GoodAt z (updateQ p t (redistributeQ bb (li ++ [img]))) :=
              fun z hz => updateQ_GoodAt_pres z p t _ _ hvp hlook (himpl z) hz
            refine ⟨by rw [hbx', hbxu], by rw [hctor', hctoru], hsh', ?_, ?_, ?_⟩
            · intro x hx
              rcases hcont' x hx with hx' | hx'
              · rcases updateQ_allImages x p t _ hx' with hx'' | hx''
                · exact Or.inl hx''
                · rcases List.mem_append.1 (mem_redistributeQ bb _ x hx'') with h9 | h9
                  · exact Or.inl (lookupQ_allImages x p t _ hlook h9)
                  · exact Or.inr (List.mem_singleton.1 h9)
              · exact Or.inr hx'
            · exact fun z hz => hpres' z (hpresStep z hz)
            · rintro (hg | ⟨e, he, hpe⟩)
              · exact hpres' img (hpresStep img hg)
              · rcases List.mem_cons.1 he with rfl | he
                · have hinbb : inBox2 bb img := by
                    obtain ⟨s0, hs0, hbox0⟩ := PathOk_lookup img p t hpe
                    rw [hlook, Option.some.injEq] at hs0
                    rw [← hs0] at hbox0
                    exact hbox0
                  have hgood : GoodAt img (redistributeQ bb (li ++ [img])) :=
                    GoodAt_redistributeQ bb img hbord
                      (List.mem_append.2 (Or.inr (List.mem_singleton.2 rfl))) hinbb
                  exact hpres' img (updateQ_GoodAt_target img p t _ hpe hgood)
                · have hpok : PathOk img e.1
                      (updateQ p t (redistributeQ bb (li ++ [img]))) :=
                    updateQ_PathOk img e.1 p t bb li _ hpe hvp hlook
                      (redistributeQ_box bb _)
                  exact hest' (Or.inr ⟨e, List.mem_append.2 (Or.inr he), hpok⟩)
          case isFalse hcond =>
            have hshape' : ShapeQ (updateQ p t (QNode.leaf bb (li ++ [img]))) :=
              updateQ_ShapeQ p t _ _ ht hlook rfl hbord
            have hstack' : ∀ e ∈ rest, ValidPath e.1 ∧ e.1 ≠ [] :=
              fun e he => hst e (List.mem_cons_of_mem _ he)
            obtain ⟨hbx', hctor', hsh', hcont', hpres', hest'⟩ :=
              ih _ t' _ h hshape' hstack'
            have hbxu : (updateQ p t (QNode.leaf bb (li ++ [img]))).box = t.box :=
              updateQ_box p t _ hne
            have hctoru : (updateQ p t (QNode.leaf bb (li ++ [img]))).isNodeB
                = t.isNodeB := updateQ_ctor p t _ hne
            have himpl : ∀ z, GoodAt z (QNode.leaf bb li) →
                GoodAt z (QNode.leaf bb (li ++ [img])) := by
              intro z hz
              cases hz with
              | leaf _ _ hin hmem =>
                exact GoodAt.leaf _ _ hin (List.mem_append.2 (Or.inl hmem))
            have hpresStep : ∀ z, GoodAt z t →
                GoodAt z (updateQ p t (QNode.leaf bb (li ++ [img]))) :=
              fun z hz => updateQ_GoodAt_pres z p t _ _ hvp hlook (himpl z) hz
            refine ⟨by rw [hbx', hbxu], by rw [hctor', hctoru], hsh', ?_, ?_, ?_⟩
            · intro x hx
              rcases hcont' x hx with hx' | hx'
              · rcases updateQ_allImages x p t _ hx' with hx'' | hx''
                · exact Or.inl hx''
                · rcases List.mem_append.1 hx'' with h9 | h9
                  · exact Or.inl (lookupQ_allImages x p t _ hlook h9)
                  · exact Or.inr (List.mem_singleton.1 h9)
              · exact Or.inr hx'
            · exact fun z hz => hpres' z (hpresStep z hz)
            · rintro (hg | ⟨e, he, hpe⟩)
              · exact hpres' img (hpresStep img hg)
              · rcases List.mem_cons.1 he with rfl | he
                · have hinbb : inBox2 bb img := by
                    obtain ⟨s0, hs0, hbox0⟩ := PathOk_lookup img p t hpe
                    rw [hlook, Option.some.injEq] at hs0
                    rw [← hs0] at hbox0
                    exact hbox0
                  have hgood : GoodAt img (QNode.leaf bb (li ++ [img])) :=
                    GoodAt.leaf _ _ hinbb
                      (List.mem_append.2 (Or.inr (List.mem_singleton.2 rfl)))
                  exact hpres' img (updateQ_GoodAt_target img p t _ hpe hgood)
                · have hpok : PathOk img e.1
                      (updateQ p t (QNode.leaf bb (li ++ [img]))) :=
                    updateQ_PathOk img e.1 p t bb li _ hpe hvp hlook rfl
                  exact hest' (Or.inr ⟨e, he, hpok⟩)
        | node bb d0 d1 d2 d3 =>
          have hShapeS : ShapeQ (QNode.node bb d0 d1 d2 d3) := lookupQ_ShapeQ p t _ hlook ht
          have hbord : bb.ordered := hShapeS.1
          have hstack' : ∀ e ∈ (p ++ [getChildIndexQ bb img], d + 1) :: rest,
              ValidPath e.1 ∧ e.1 ≠ [] := by
            intro e he
            rcases List.mem_cons.1 he with rfl | he
            · constructor
              · intro k hk
                rcases List.mem_append.1 hk with hk | hk
                · exact hvp k hk
                · rw [List.mem_singleton.1 hk]
                  exact getChildIndexQ_lt bb img
              · simp
            · exact hst e (List.mem_cons_of_mem _ he)
          obtain ⟨hbx', hctor', hsh', hcont', hpres', hest'⟩ :=
            ih _ t' _ h ht hstack'
          refine ⟨hbx', hctor', hsh', hcont', hpres', ?_⟩
          rintro (hg | ⟨e, he, hpe⟩)
          · exact hest' (Or.inl hg)
          · rcases List.mem_cons.1 he with rfl | he
            · have hinbb : inBox2 bb img := by
                obtain ⟨s0, hs0, hbox0⟩ := PathOk_lookup img p t hpe
                rw [hlook, Option.some.injEq] at hs0
                rw [← hs0] at hbox0
                exact hbox0
              have hg4 := getChildIndexQ_lt bb img
              have hcb : inBox2 ((QNode.node bb d0 d1 d2 d3).child
                  (getChildIndexQ bb img)).box img := by
                rw [(ShapeQ_child bb d0 d1 d2 d3 hShapeS _ hg4).1]
                exact inBox2_childBoxQ_getChildIndexQ bb img hbord hinbb
              have hpok : PathOk img (p ++ [getChildIndexQ bb img]) t :=
                PathOk_extend img p t bb d0 d1 d2 d3 _ hpe hlook hg4 hcb
              exact hest' (Or.inr ⟨_, List.mem_cons_self _ _, hpok⟩)
            · exact hest' (Or.inr ⟨e, List.mem_cons_of_mem _ he, hpe⟩)
theorem foldl_bind_none_gen {α β : Type} (f : β → α → Option β) :
    ∀ (l : List α),
      l.foldl (fun acc x => acc.bind (fun n => f n x)) none = none := by
  intro l
  induction l with
  | nil => rfl
  | cons x xs ih => simpa using ih

/-- The re-insertion fold of `insertIterative`'s split branch: every record
of the buffer that lies in the parent box ends up well placed, shape and
box are preserved, and contents only gain records of the buffer. -/
theorem foldInsertQ_spec (thr fuel depth : Nat) (b : Box2) :
    ∀ (l : List Image) (n0 n' : QNode),
      l.foldl (fun acc x => acc.bind (fun n =>
        insertIntoChildLoop thr x fuel n [([getChildIndexQ b x], depth)]))
        (some n0) = some n' →
      ShapeQ n0 → n0.box = b → n0.isNodeB = true →
      n'.box = b ∧ n'.isNodeB = true ∧ ShapeQ n' ∧
      (∀ x, x ∈ allImagesQ n' → x ∈ allImagesQ n0 ∨ x ∈ l) ∧
      (∀ z, GoodAt z n0 → GoodAt z n') ∧
      (∀ z ∈ l, inBox2 b z → GoodAt z n') := by
  intro l
  induction l with
  | nil =>
    intro n0 n' h hsh hbox hctor
    rw [List.foldl_nil, Option.some.injEq] at h
    subst h
    refine ⟨hbox, hctor, hsh, fun x hx => Or.inl hx, fun z hz => hz, ?_⟩
    intro z hz
    cases hz
  | cons x l ihl =>
    intro n0 n' h hsh hbox hctor
    rw [List.foldl_cons] at h
    cases hstep : insertIntoChildLoop thr x fuel n0 [([getChildIndexQ b x], depth)] with
    | none =>
      rw [Option.some_bind, hstep] at h
      rw [foldl_bind_none_gen] at h
      cases h
    | some n1 =>
      rw [Option.some_bind, hstep] at h
      have hstack : ∀ e ∈ [([getChildIndexQ b x], depth)],
          ValidPath e.1 ∧ e.1 ≠ [] := by
        intro e he
        rw [List.mem_singleton.1 he]
        refine ⟨?_, by simp⟩
        intro k hk
        rw [List.mem_singleton.1 hk]
        exact getChildIndexQ_lt b x
      obtain ⟨hbx1, hctor1, hsh1, hcont1, hpres1, hest1⟩ :=
        insertIntoChildLoop_spec thr x fuel n0 n1 _ hstep hsh hstack
      rw [hbox] at hbx1
      rw [hctor] at hctor1
      obtain ⟨hbx', hctor', hsh', hcont', hpres', hest'⟩ :=
        ihl n1 n' h hsh1 hbx1 hctor1
      refine ⟨hbx', hctor', hsh', ?_, ?_, ?_⟩
      · intro y hy
        rcases hcont' y hy with hy' | hy'
        · rcases hcont1 y hy' with hy'' | hy''
          · exact Or.inl hy''
          · exact Or.inr (hy'' ▸ List.mem_cons_self x l)
        · exact Or.inr (List.mem_cons_of_mem x hy')
      · exact fun z hz => hpres' z (hpres1 z hz)
      · intro z hz hzbox
        rcases List.mem_cons.1 hz with rfl | hz'
        · refine hpres' z (hest1 (Or.inr ⟨_, List.mem_singleton.2 rfl, ?_⟩))
          cases hn0 : n0 with
          | leaf bb li => rw [hn0] at hctor; cases hctor
          | node bb e0 e1 e2 e3 =>
            have hbb : bb = b := by rw [hn0] at hbox; exact hbox
            subst hbb
            rw [hn0] at hsh
            rw [PathOk]
            refine ⟨hzbox, getChildIndexQ_lt bb z, ?_⟩
            rw [PathOk, (ShapeQ_child bb e0 e1 e2 e3 hsh _ (getChildIndexQ_lt bb z)).1]
            exact inBox2_childBoxQ_getChildIndexQ bb z hsh.1 hzbox
        · exact hest' z hz' hzbox
theorem allImagesQ_splitNodeQ (b : Box2) : allImagesQ (splitNodeQ b) = [] := rfl

/-- `insertIterative` invariant: a successful insert of a record lying in
the tree's box preserves box and shape, only adds copies of the record,
preserves good placements, and places the inserted record well. -/
theorem insertQtop_spec (thr fuel : Nat) :
    ∀ (t : QNode) (img : Image) (depth : Nat) (t' : QNode),
      insertQtop thr fuel t img depth = some t' →
      ShapeQ t → inBox2 t.box img →
      t'.box = t.box ∧ ShapeQ t' ∧
      (∀ x, x ∈ allImagesQ t' → x ∈ allImagesQ t ∨ x = img) ∧
      (∀ z, GoodAt z t → GoodAt z t') ∧
      GoodAt img t' := by
  intro t
  induction t with
  | leaf b imgs =>
    intro img depth t' h hsh hbox
    rw [insertQtop] at h
    split at h
    case isTrue hcond =>
      obtain ⟨hbx', hctor', hsh', hcont', hpres', hest'⟩ :=
        foldInsertQ_spec thr fuel (depth + 1) b (imgs ++ [img]) (splitNodeQ b) t' h
          (ShapeQ_splitNodeQ b hsh) rfl rfl
      refine ⟨hbx', hsh', ?_, ?_, ?_⟩
      · intro x hx
        rcases hcont' x hx with hx' | hx'
        · rw [allImagesQ_splitNodeQ] at hx'
          cases hx'
        · rcases List.mem_append.1 hx' with h9 | h9
          · exact Or.inl h9
          · exact Or.inr (List.mem_singleton.1 h9)
      · intro z hz
        cases hz with
        | leaf _ _ hin hmem =>
          exact hest' z (List.mem_append.2 (Or.inl hmem)) hin
      · exact hest' img (List.mem_append.2 (Or.inr (List.mem_singleton.2 rfl))) hbox
    case isFalse hcond =>
      rw [Option.some.injEq] at h
      subst h
      refine ⟨rfl, hsh, ?_, ?_, ?_⟩
      · intro x hx
        rcases List.mem_append.1 hx with h9 | h9
        · exact Or.inl h9
        · exact Or.inr (List.mem_singleton.1 h9)
      · intro z hz
        cases hz with
        | leaf _ _ hin hmem =>
          exact GoodAt.leaf _ _ hin (List.mem_append.2 (Or.inl hmem))
      · exact GoodAt.leaf _ _ hbox
          (List.mem_append.2 (Or.inr (List.mem_singleton.2 rfl)))
  | node b c0 c1 c2 c3 ih0 ih1 ih2 ih3 =>
    intro img depth t' h hsh hbox
    rw [insertQtop] at h
    have hg4 := getChildIndexQ_lt b img
    have hcbm := inBox2_childBoxQ_getChildIndexQ b img hsh.1 hbox
    by_cases hg0 : getChildIndexQ b img = 0
    · rw [if_pos hg0] at h
      rcases Option.map_eq_some'.1 h with ⟨c', hstep, ht'⟩
      obtain ⟨hbx', hsh', hcont', hpres', hest'⟩ :=
        ih0 img (depth + 1) c' hstep hsh.2.1.2
          (by rw [hsh.2.1.1]; rw [hg0] at hcbm; exact hcbm)
      subst ht'
      refine ⟨rfl, ?_, ?_, ?_, ?_⟩
      · exact ⟨hsh.1, ⟨by rw [hbx', hsh.2.1.1], hsh'⟩, hsh.2.2.1, hsh.2.2.2.1,
          hsh.2.2.2.2⟩
      · intro x hx
        rw [allImagesQ] at hx ⊢
        simp only [List.mem_append] at hx ⊢
        rcases hx with ((hx | hx) | hx) | hx
        · rcases hcont' x hx with h9 | h9
          · exact Or.inl (Or.inl (Or.inl (Or.inl h9)))
          · exact Or.inr h9
        · exact Or.inl (Or.inl (Or.inl (Or.inr hx)))
        · exact Or.inl (Or.inl (Or.inr hx))
        · exact Or.inl (Or.inr hx)
      · intro z hz
        cases hz with
        | node _ _ _ _ _ j hj hzb hgood =>
          by_cases hj0 : j = 0
          · subst hj0
            rw [child_node_evalQ0] at hgood
            exact GoodAt.node b c' c1 c2 c3 0 (by omega) hzb
              (by rw [child_node_evalQ0]; exact hpres' z hgood)
          · refine GoodAt.node b c' c1 c2 c3 j hj hzb ?_
            have h4 : j = 1 ∨ j = 2 ∨ j = 3 := by omega
            rcases h4 with rfl | rfl | rfl
            · rw [child_node_evalQ1] at hgood ⊢; exact hgood
            · rw [child_node_evalQ2] at hgood ⊢; exact hgood
            · rw [child_node_evalQ3] at hgood ⊢; exact hgood
      · exact GoodAt.node b c' c1 c2 c3 0 (by omega) hbox
          (by rw [child_node_evalQ0]; exact hest')
    · by_cases hg1 : getChildIndexQ b img = 1
      · rw [if_neg hg0, if_pos hg1] at h
        rcases Option.map_eq_some'.1 h with ⟨c', hstep, ht'⟩
        obtain ⟨hbx', hsh', hcont', hpres', hest'⟩ :=
          ih1 img (depth + 1) c' hstep hsh.2.2.1.2
            (by rw [hsh.2.2.1.1]; rw [hg1] at hcbm; exact hcbm)
        subst ht'
        refine ⟨rfl, ?_, ?_, ?_, ?_⟩
        · exact ⟨hsh.1, hsh.2.1, ⟨by rw [hbx', hsh.2.2.1.1], hsh'⟩, hsh.2.2.2.1,
            hsh.2.2.2.2⟩
        · intro x hx
          rw [allImagesQ] at hx ⊢
          simp only [List.mem_append] at hx ⊢
          rcases hx with ((hx | hx) | hx) | hx
          · exact Or.inl (Or.inl (Or.inl (Or.inl hx)))
          · rcases hcont' x hx with h9 | h9
            · exact Or.inl (Or.inl (Or.inl (Or.inr h9)))
            · exact Or.inr h9
          · exact Or.inl (Or.inl (Or.inr hx))
          · exact Or.inl (Or.inr hx)
        · intro z hz
          cases hz with
          | node _ _ _ _ _ j hj hzb hgood =>
            by_cases hj1 : j = 1
            · subst hj1
              rw [child_node_evalQ1] at hgood
              exact GoodAt.node b c0 c' c2 c3 1 (by omega) hzb
                (by rw [child_node_evalQ1]; exact hpres' z hgood)
            · refine GoodAt.node b c0 c' c2 c3 j hj hzb ?_
              have h4 : j = 0 ∨ j = 2 ∨ j = 3 := by omega
              rcases h4 with rfl | rfl | rfl
              · rw [child_node_evalQ0] at hgood ⊢; exact hgood
              · rw [child_node_evalQ2] at hgood ⊢; exact hgood
              · rw [child_node_evalQ3] at hgood ⊢; exact hgood
        · exact GoodAt.node b c0 c' c2 c3 1 (by omega) hbox
            (by rw [child_node_evalQ1]; exact hest')
      · by_cases hg2 : getChildIndexQ b img = 2
        · rw [if_neg hg0, if_neg hg1, if_pos hg2] at h
          rcases Option.map_eq_some'.1 h with ⟨c', hstep, ht'⟩
          obtain ⟨hbx', hsh', hcont', hpres', hest'⟩ :=
            ih2 img (depth + 1) c' hstep hsh.2.2.2.1.2
              (by rw [hsh.2.2.2.1.1]; rw [hg2] at hcbm; exact hcbm)
          subst ht'
          refine ⟨rfl, ?_, ?_, ?_, ?_⟩
          · exact ⟨hsh.1, hsh.2.1, hsh.2.2.1, ⟨by rw [hbx', hsh.2.2.2.1.1], hsh'⟩,
              hsh.2.2.2.2⟩
          · intro x hx
            rw [allImagesQ] at hx ⊢
            simp only [List.mem_append] at hx ⊢
            rcases hx with ((hx | hx) | hx) | hx
            · exact Or.inl (Or.inl (Or.inl (Or.inl hx)))
            · exact Or.inl (Or.inl (Or.inl (Or.inr hx)))
            · rcases hcont' x hx with h9 | h9
              · exact Or.inl (Or.inl (Or.inr h9))
              · exact Or.inr h9
            · exact Or.inl (Or.inr hx)
          · intro z hz
            cases hz with
            | node _ _ _ _ _ j hj hzb hgood =>
              by_cases hj2 : j = 2
              · subst hj2
                rw [child_node_evalQ2] at hgood
                exact GoodAt.node b c0 c1 c' c3 2 (by omega) hzb
                  (by rw [child_node_evalQ2]; exact hpres' z hgood)
              · refine GoodAt.node b c0 c1 c' c3 j hj hzb ?_
                have h4 : j = 0 ∨ j = 1 ∨ j = 3 := by omega
                rcases h4 with rfl | rfl | rfl
                · rw [child_node_evalQ0] at hgood ⊢; exact hgood
                · rw [child_node_evalQ1] at hgood ⊢; exact hgood
                · rw [child_node_evalQ3] at hgood ⊢; exact hgood
          · exact GoodAt.node b c0 c1 c' c3 2 (by omega) hbox
              (by rw [child_node_evalQ2]; exact hest')
        · rw [if_neg hg0, if_neg hg1, if_neg hg2] at h
          rcases Option.map_eq_some'.1 h with ⟨c', hstep, ht'⟩
          have hg3 : getChildIndexQ b img = 3 := by omega
          obtain ⟨hbx', hsh', hcont', hpres', hest'⟩ :=
            ih3 img (depth + 1) c' hstep hsh.2.2.2.2.2
              (by rw [hsh.2.2.2.2.1]; rw [hg3] at hcbm; exact hcbm)
          subst ht'
          refine ⟨rfl, ?_, ?_, ?_, ?_⟩
          · exact ⟨hsh.1, hsh.2.1, hsh.2.2.1, hsh.2.2.2.1,
              ⟨by rw [hbx', hsh.2.2.2.2.1], hsh'⟩⟩
          · intro x hx
            rw [allImagesQ] at hx ⊢
            simp only [List.mem_append] at hx ⊢
            rcases hx with ((hx | hx) | hx) | hx
            · exact Or.inl (Or.inl (Or.inl (Or.inl hx)))
            · exact Or.inl (Or.inl (Or.inl (Or.inr hx)))
            · exact Or.inl (Or.inl (Or.inr hx))
            · rcases hcont' x hx with h9 | h9
              · exact Or.inl (Or.inr h9)
              · exact Or.inr h9
          · intro z hz
            cases hz with
            | node _ _ _ _ _ j hj hzb hgood =>
              by_cases hj3 : j = 3
              · subst hj3
                rw [child_node_evalQ3] at hgood
                exact GoodAt.node b c0 c1 c2 c' 3 (by omega) hzb
                  (by rw [child_node_evalQ3]; exact hpres' z hgood)
              · refine GoodAt.node b c0 c1 c2 c' j hj hzb ?_
                have h4 : j = 0 ∨ j = 1 ∨ j = 2 := by omega
                rcases h4 with rfl | rfl | rfl
                · rw [child_node_evalQ0] at hgood ⊢; exact hgood
                · rw [child_node_evalQ1] at hgood ⊢; exact hgood
                · rw [child_node_evalQ2] at hgood ⊢; exact hgood
          · exact GoodAt.node b c0 c1 c2 c' 3 (by omega) hbox
              (by rw [child_node_evalQ3]; exact hest')
theorem wellFormed_inBox2_root (img : Image) (h : wellFormed img) :
    inBox2 rootBoxQ img := by
  obtain ⟨h1, h2, h3, h4, _, _⟩ := h
  exact ⟨h1, h2, h3, h4⟩

theorem rootBoxQ_ordered : rootBoxQ.ordered := by
  constructor <;> norm_num [rootBoxQ]

/-- Building a quadtree from a well-formed dataset: the tree keeps the root
box and shape, stores only (copies of) dataset records, and places every
dataset record well at least once. -/
theorem buildQuadtree_spec (fuel thr : Nat) (imgs : List Image) (t : QNode)
    (h : buildQuadtree fuel thr imgs = some t)
    (hwf : ∀ img ∈ imgs, wellFormed img) :
    t.box = rootBoxQ ∧ ShapeQ t ∧
    (∀ x, x ∈ allImagesQ t → x ∈ imgs) ∧
    (∀ y ∈ imgs, GoodAt y t) := by
  rw [buildQuadtree] at h
  suffices haux : ∀ (l : List Image) (n0 n' : QNode),
      l.foldl (fun acc img => acc.bind (fun n => insertQtop thr fuel n img 0))
        (some n0) = some n' →
      ShapeQ n0 → n0.box = rootBoxQ → (∀ img ∈ l, wellFormed img) →
      n'.box = rootBoxQ ∧ ShapeQ n' ∧
      (∀ x, x ∈ allImagesQ n' → x ∈ allImagesQ n0 ∨ x ∈ l) ∧
      (∀ z, GoodAt z n0 → GoodAt z n') ∧ (∀ y ∈ l, GoodAt y n') by
    obtain ⟨hbx, hsh, hcont, _, hgood⟩ :=
      haux imgs emptyQuadtree t h rootBoxQ_ordered rfl hwf
    refine ⟨hbx, hsh, ?_, hgood⟩
    intro x hx
    rcases hcont x hx with h9 | h9
    · cases h9
    · exact h9
  intro l
  induction l with
  | nil =>
    intro n0 n' h hsh hbx _
    rw [List.foldl_nil, Option.some.injEq] at h
    subst h
    exact ⟨hbx, hsh, fun x hx => Or.inl hx, fun z hz => hz, fun y hy => absurd hy
      (List.not_mem_nil y)⟩
  | cons x l ihl =>
    intro n0 n' h hsh hbx hwfl
    rw [List.foldl_cons] at h
    cases hstep : insertQtop thr fuel n0 x 0 with
    | none =>
      rw [Option.some_bind, hstep] at h
      rw [foldl_bind_none_gen] at h
      cases h
    | some n1 =>
      rw [Option.some_bind, hstep] at h
      obtain ⟨hbx1, hsh1, hcont1, hpres1, hest1⟩ :=
        insertQtop_spec thr fuel n0 x 0 n1 hstep hsh
          (by rw [hbx]; exact wellFormed_inBox2_root x (hwfl x (List.mem_cons_self x l)))
      obtain ⟨hbx', hsh', hcont', hpres', hgood'⟩ :=
        ihl n1 n' h hsh1 (by rw [hbx1, hbx])
          (fun img him => hwfl img (List.mem_cons_of_mem x him))
      refine ⟨hbx', hsh', ?_, fun z hz => hpres' z (hpres1 z hz), ?_⟩
      · intro y hy
        rcases hcont' y hy with hy' | hy'
        · rcases hcont1 y hy' with hy'' | hy''
          · exact Or.inl hy''
          · exact Or.inr (hy'' ▸ List.mem_cons_self x l)
        · exact Or.inr (List.mem_cons_of_mem x hy')
      · intro y hy
        rcases List.mem_cons.1 hy with rfl | hy'
        · exact hpres' y hest1
        · exact hgood' y hy'
theorem searchQLoop_sound (q : Image) (r : Rat) :
    ∀ (queue : List QNode) (x : Image), x ∈ searchQLoop q r queue →
      (∃ n ∈ queue, x ∈ allImagesQ n) ∧ distLE q x r = true := by
  intro queue
  induction queue using searchQLoop.induct q r with
  | case1 =>
    intro x hx
    rw [searchQLoop] at hx
    cases hx
  | case2 b imgs rest hpr ih =>
    intro x hx
    rw [searchQLoop, if_pos hpr] at hx
    rcases List.mem_append.1 hx with hx' | hx'
    · obtain ⟨hmem, hdist⟩ := List.mem_filter.1 hx'
      exact ⟨⟨QNode.leaf b imgs, List.mem_cons_self _ _, hmem⟩, hdist⟩
    · obtain ⟨⟨n, hn, hmem⟩, hdist⟩ := ih x hx'
      exact ⟨⟨n, List.mem_cons_of_mem _ hn, hmem⟩, hdist⟩
  | case3 b imgs rest hpr ih =>
    intro x hx
    rw [searchQLoop, if_neg hpr] at hx
    obtain ⟨⟨n, hn, hmem⟩, hdist⟩ := ih x hx
    exact ⟨⟨n, List.mem_cons_of_mem _ hn, hmem⟩, hdist⟩
  | case4 b c0 c1 c2 c3 rest hpr ih =>
    intro x hx
    rw [searchQLoop, if_pos hpr] at hx
    obtain ⟨⟨n, hn, hmem⟩, hdist⟩ := ih x hx
    rcases List.mem_append.1 hn with hn' | hn'
    · exact ⟨⟨n, List.mem_cons_of_mem _ hn', hmem⟩, hdist⟩
    · refine ⟨⟨QNode.node b c0 c1 c2 c3, List.mem_cons_self _ _, ?_⟩, hdist⟩
      rw [allImagesQ]
      simp only [List.mem_append]
      simp only [List.mem_cons, List.not_mem_nil, or_false] at hn'
      rcases hn' with rfl | rfl | rfl | rfl
      · exact Or.inl (Or.inl (Or.inl hmem))
      · exact Or.inl (Or.inl (Or.inr hmem))
      · exact Or.inl (Or.inr hmem)
      · exact Or.inr hmem
  | case5 b c0 c1 c2 c3 rest hpr ih =>
    intro x hx
    rw [searchQLoop, if_neg hpr] at hx
    obtain ⟨⟨n, hn, hmem⟩, hdist⟩ := ih x hx
    exact ⟨⟨n, List.mem_cons_of_mem _ hn, hmem⟩, hdist⟩
theorem quadPrune_of_good (b : Box2) (q x : Image) (r : Rat)
    (hin : inBox2 b x) (hdist : distLE q x r = true) : quadPrune b q r = true := by
  rw [distLE, decide_eq_true_eq] at hdist
  rw [quadPrune, decide_eq_true_eq]
  exact ⟨hdist.1, le_trans (minDistSqQ_le_sqDist b q x hin) hdist.2⟩

theorem searchQLoop_complete (q : Image) (r : Rat) :
    ∀ (queue : List QNode) (x : Image) (n : QNode), n ∈ queue → GoodAt x n →
      distLE q x r = true → x ∈ searchQLoop q r queue := by
  intro queue
  induction queue using searchQLoop.induct q r with
  | case1 =>
    intro x n hn _ _
    cases hn
  | case2 b imgs rest hpr ih =>
    intro x n hn hgood hdist
    rw [searchQLoop, if_pos hpr]
    rcases List.mem_cons.1 hn with rfl | hn'
    · cases hgood with
      | leaf _ _ hin hmem =>
        exact List.mem_append.2 (Or.inl (List.mem_filter.2 ⟨hmem, hdist⟩))
    · exact List.mem_append.2 (Or.inr (ih x n hn' hgood hdist))
  | case3 b imgs rest hpr ih =>
    intro x n hn hgood hdist
    rw [searchQLoop, if_neg hpr]
    rcases List.mem_cons.1 hn with rfl | hn'
    · cases hgood with
      | leaf _ _ hin hmem =>
        exact absurd (quadPrune_of_good b q x r hin hdist) hpr
    · exact ih x n hn' hgood hdist
  | case4 b c0 c1 c2 c3 rest hpr ih =>
    intro x n hn hgood hdist
    rw [searchQLoop, if_pos hpr]
    rcases List.mem_cons.1 hn with rfl | hn'
    · cases hgood with
      | node _ _ _ _ _ i hi hin hchild =>
        refine ih x ((QNode.node b c0 c1 c2 c3).child i) ?_ hchild hdist
        have h4 : i = 0 ∨ i = 1 ∨ i = 2 ∨ i = 3 := by omega
        rcases h4 with rfl | rfl | rfl | rfl
        · rw [child_node_evalQ0]; exact List.mem_append.2 (Or.inr (by simp))
        · rw [child_node_evalQ1]; exact List.mem_append.2 (Or.inr (by simp))
        · rw [child_node_evalQ2]; exact List.mem_append.2 (Or.inr (by simp))
        · rw [child_node_evalQ3]; exact List.mem_append.2 (Or.inr (by simp))
    · exact ih x n (List.mem_append.2 (Or.inl hn')) hgood hdist
  | case5 b c0 c1 c2 c3 rest hpr ih =>
    intro x n hn hgood hdist
    rw [searchQLoop, if_neg hpr]
    rcases List.mem_cons.1 hn with rfl | hn'
    · cases hgood with
      | node _ _ _ _ _ i hi hin hchild =>
        exact absurd (quadPrune_of_good b q x r hin hdist) hpr
    · exact ih x n hn' hgood hdist
unseal Rat.add Rat.mul Rat.inv Rat.sub Rat.ofScientific in
/-- C7: REFUTED as stated.  After inserting the two records `imgA7 = (0,0,0)`
and `imgC7 = (10,0,0)` with split threshold 1, the iterative quadtree holds a
reachable subtree (path 0,0,…,0, ten steps) that stores a copy of `imgC7`
although the 2-axis pruning bound of that subtree's rectangle, evaluated at
the query `imgC7` itself, exceeds the true 3-axis distance 0 to that stored
record: the bound `minDistSqQ` is NOT always ≤ the distance to every record
in the subtree, because `insertIntoChild` re-inserts the parameter record
into children selected for other records' coordinates. -/
theorem quadtree_pruning_bound_violated :
    (buildQuadtree 500 1 [imgA7, imgC7]).bind
        (fun t => (lookupQ [0, 0, 0, 0, 0, 0, 0, 0, 0, 0] t).map
          (fun sub => (decide (imgC7 ∈ allImagesQ sub),
            decide (minDistSqQ sub.box imgC7 ≤ sqDist imgC7 imgC7)))) =
      some (true, false) := by
  decide
/-- C7 (amended): for every dataset of well-formed records and every query,
the iterative quadtree query returns the same SET of records as the linear
scan (the same records at full 3-axis distance ≤ threshold).  The leaf
filter uses the full 3-axis distance, and although the duplicated-insertion
bug places stray copies in rectangles that do not contain them (so the
per-subtree pruning-bound claim fails and matches can be returned with the
wrong multiplicity), every inserted record keeps at least one placement
reachable through rectangles that contain it, and on that chain the 2-axis
bound is conservative, so no record is lost as a set element. -/
theorem quadtree_query_eq_linear_set (fuel thr : Nat) (imgs : List Image)
    (q : Image) (r : Rat) (t : QNode)
    (hbuild : buildQuadtree fuel thr imgs = some t)
    (hwf : ∀ img ∈ imgs, wellFormed img) :
    ∀ x, x ∈ quadtreeFindSimilar t q r ↔ x ∈ linearFindSimilar imgs q r := by
  obtain ⟨hbx, hsh, hcont, hgood⟩ := buildQuadtree_spec fuel thr imgs t hbuild hwf
  intro x
  rw [quadtreeFindSimilar, mem_sortByDist, mem_linearFindSimilar]
  constructor
  · intro hx
    obtain ⟨⟨n, hn, hmem⟩, hdist⟩ := searchQLoop_sound q r [t] x hx
    rw [List.mem_singleton] at hn
    subst hn
    exact ⟨hcont x hmem, hdist⟩
  · intro ⟨hmem, hdist⟩
    exact searchQLoop_complete q r [t] x t (List.mem_singleton.2 rfl)
      (hgood x hmem) hdist

theorem quadtree_query_eq_linear_set_witness :
    buildQuadtree 0 1 [imgW7] = some (QNode.leaf rootBoxQ [imgW7]) ∧
    (∀ img ∈ [imgW7], wellFormed img) ∧
    (imgW7 ∈ quadtreeFindSimilar (QNode.leaf rootBoxQ [imgW7]) imgW7 2 ↔
      imgW7 ∈ linearFindSimilar [imgW7] imgW7 2) := by
  have hb : buildQuadtree 0 1 [imgW7] = some (QNode.leaf rootBoxQ [imgW7]) := by
    decide
  have hwf : ∀ img ∈ [imgW7], wellFormed img := by
    intro img him
    rw [List.mem_singleton] at him
    subst him
    refine ⟨by decide, by decide, by decide, by decide, by decide, by decide⟩
  exact ⟨hb, hwf, quadtree_query_eq_linear_set 0 1 [imgW7] imgW7 2 _ hb hwf imgW7⟩
/-- With enough fuel (one unit per loop iteration, i.e. the total node count
of the queue), the fuel-indexed search computes exactly `searchQLoop`. -/
theorem searchQFuel_eq (q : Image) (r : Rat) :
    ∀ (queue : List QNode) (fuel : Nat), (queue.map QNode.size).sum ≤ fuel →
      searchQFuel q r fuel queue = searchQLoop q r queue := by
  intro queue
  induction queue using searchQLoop.induct q r with
  | case1 =>
    intro fuel _
    cases fuel <;> simp [searchQFuel, searchQLoop]
  | case2 b imgs rest hpr ih =>
    intro fuel hfuel
    simp only [List.map_cons, List.sum_cons, QNode.size] at hfuel
    cases fuel with
    | zero => omega
    | succ f =>
      rw [searchQFuel, searchQLoop, if_pos hpr, if_pos hpr, ih f (by omega)]
  | case3 b imgs rest hpr ih =>
    intro fuel hfuel
    simp only [List.map_cons, List.sum_cons, QNode.size] at hfuel
    cases fuel with
    | zero => omega
    | succ f =>
      rw [searchQFuel, searchQLoop, if_neg hpr, if_neg hpr, ih f (by omega)]
  | case4 b c0 c1 c2 c3 rest hpr ih =>
    intro fuel hfuel
    simp only [List.map_cons, List.sum_cons, QNode.size] at hfuel
    cases fuel with
    | zero => omega
    | succ f =>
      rw [searchQFuel, searchQLoop, if_pos hpr, if_pos hpr]
      refine ih f ?_
      simp only [List.map_append, List.sum_append, List.map_cons, List.sum_cons,
        List.map_nil, List.sum_nil]
      omega
  | case5 b c0 c1 c2 c3 rest hpr ih =>
    intro fuel hfuel
    simp only [List.map_cons, List.sum_cons, QNode.size] at hfuel
    cases fuel with
    | zero => omega
    | succ f =>
      rw [searchQFuel, searchQLoop, if_neg hpr, if_neg hpr, ih f (by omega)]
set_option maxRecDepth 40000 in
unseal Rat.add Rat.mul Rat.inv Rat.sub Rat.ofScientific in
theorem quadtree_bug_eval :
    (buildQuadtree 500 1 [imgQD1, imgQD2]).map
        (fun t => ((allImagesQ t).count imgQD2,
          (sortByDist imgQD1 (searchQFuel imgQD1 600 1000 [t])).count imgQD2,
          decide (QNode.size t ≤ 1000))) =
      some (55, 55, true) := by
  decide

set_option maxRecDepth 20000 in
/-- C2: REFUTED for the quadtree.  Insert exactly two records with split
threshold 1, so a subdivision is forced.  `insertIntoChild` pushes each
redistributed record directly into its child AND pushes a stack entry that
appends the parameter record again on every later pop, so the second record
— inserted exactly once — is stored in the tree 55 times, and the query
whose threshold 600 covers the whole space returns it 55 times instead of
exactly once. -/
theorem quadtree_record_not_stored_once :
    (buildQuadtree 500 1 [imgQD1, imgQD2]).map
        (fun t => ((allImagesQ t).count imgQD2,
          (quadtreeFindSimilar t imgQD1 600).count imgQD2)) =
      some (55, 55) := by
  have h1 := quadtree_bug_eval
  cases hb : buildQuadtree 500 1 [imgQD1, imgQD2] with
  | none => rw [hb] at h1; cases h1
  | some t =>
    rw [hb] at h1
    simp only [Option.map_some', Option.some.injEq, Prod.mk.injEq] at h1 ⊢
    obtain ⟨e1, e2, e3⟩ := h1
    refine ⟨e1, ?_⟩
    rw [quadtreeFindSimilar, ← searchQFuel_eq imgQD1 600 [t] 1000 ?_]
    · exact e2
    · simp only [List.map_cons, List.map_nil, List.sum_cons, List.sum_nil]
      have := of_decide_eq_true e3
      omega
/-- C9 (amended): no structure rejects a negative threshold.  Instead of a
precondition violation, every query function silently returns the empty
list for every negative threshold, because the inclusive distance test
`sqrt(d) <= threshold` (embedded as `0 ≤ t ∧ d ≤ t·t`) and the pruning
tests are unsatisfiable for `t < 0`. -/
theorem negative_threshold_all_empty (imgs : List Image) (q : Image) (t : Rat)
    (ht : t < 0) (cs : Rat) (m : Int) (ot : ONode) (qt : QNode) :
    linearFindSimilar imgs q t = [] ∧
    hashFindSimilar cs imgs q t = [] ∧
    findSimilarDynamic cs imgs q t m = [] ∧
    octreeFindSimilar ot q t = [] ∧
    quadtreeFindSimilar qt q t = [] := by
  have hd : ∀ x : Image, ¬distLE q x t = true := by
    intro x hx
    rw [distLE, decide_eq_true_eq] at hx
    exact absurd hx.1 (not_le.2 ht)
  refine ⟨?_, ?_, ?_, ?_, ?_⟩
  · rw [List.eq_nil_iff_forall_not_mem]
    intro x hx
    exact hd x ((mem_linearFindSimilar imgs q x t).1 hx).2
  · rw [List.eq_nil_iff_forall_not_mem]
    intro x hx
    rw [hashFindSimilar, mem_sortByDist] at hx
    exact hd x (hashCubeCollect_sound cs imgs q x t hx).2
  · have hS : sortByDist q
        (dynGo cs imgs (cellKey cs q) q t m (intRange 0 ⌈t / cs⌉) []) = [] := by
      rw [List.eq_nil_iff_forall_not_mem]
      intro x hx
      rw [mem_sortByDist] at hx
      rcases dynGo_sound cs imgs (cellKey cs q) q t m _ [] x hx with h0 | ⟨r, _, hr⟩
      · cases h0
      · exact hd x (searchCubeAtRadius_sound cs imgs (cellKey cs q) r q t x hr).2
    rw [findSimilarDynamic_eq, hS]
    split
    · exact List.take_nil
    · rfl
  · rw [List.eq_nil_iff_forall_not_mem]
    intro x hx
    rw [octreeFindSimilar, mem_sortByDist] at hx
    exact hd x (searchO_sound ot q x t hx).2
  · rw [List.eq_nil_iff_forall_not_mem]
    intro x hx
    rw [quadtreeFindSimilar, mem_sortByDist] at hx
    exact hd x (searchQLoop_sound q t [qt] x hx).2

theorem negative_threshold_all_empty_witness :
    (-1 : Rat) < 0 ∧
    (linearFindSimilar [imgHashA] imgHashA (-1) = [] ∧
     hashFindSimilar 1 [imgHashA] imgHashA (-1) = [] ∧
     findSimilarDynamic 1 [imgHashA] imgHashA (-1) (-1) = [] ∧
     octreeFindSimilar (ONode.leaf rootBoxO [imgHashA]) imgHashA (-1) = [] ∧
     quadtreeFindSimilar (QNode.leaf rootBoxQ [imgHashA]) imgHashA (-1) = []) :=
  ⟨by decide, negative_threshold_all_empty [imgHashA] imgHashA (-1) (by decide) 1 (-1)
    (ONode.leaf rootBoxO [imgHashA]) (QNode.leaf rootBoxQ [imgHashA])⟩
unseal Rat.add Rat.mul Rat.inv Rat.sub Rat.ofScientific in
/-- C6: for the header octree (`octree_search.h`) the claim holds: the child
index is the 3-bit rule bit 2 = r ≥ midR, bit 1 = g ≥ midG, bit 0 = b ≥ midB
and the selected octant contains the record.  The scalable-benchmark variant
(part_001) is a code bug: `createChildren` passes `maxR` as the lower G
bound of children 2, 3, 6 and 7, so the in-box record (0,200,0) is routed to
child 2 whose box has the empty-in-G range [255,255] and does not contain
it (and that variant also assigns r to bit 0, not bit 2). -/
theorem octree_child_selection_code_bug :
    (∀ (b : Box3) (img : Image), b.ordered → inBox3 b img →
        getChildIndexO b img =
          (if b.midR ≤ img.r then 4 else 0) + (if b.midG ≤ img.g then 2 else 0) +
            (if b.midB ≤ img.b then 1 else 0) ∧
        getChildIndexO b img < 8 ∧
        inBox3 (childBoxO b (getChildIndexO b img)) img) ∧
    (inBox3 rootBoxO imgC6 ∧ getChildIndexSB rootBoxO imgC6 = 2 ∧
      (childBoxSB rootBoxO 2).minG = 255 ∧
      ¬ inBox3 (childBoxSB rootBoxO (getChildIndexSB rootBoxO imgC6)) imgC6) := by
  constructor
  · intro b img hb hin
    exact ⟨rfl, getChildIndexO_lt b img, inBox3_childBoxO_getChildIndexO b img hb hin⟩
  · refine ⟨⟨by decide, by decide, by decide, by decide, by decide, by decide⟩,
      by decide, by decide, ?_⟩
    intro h
    exact absurd h.2.2.1 (by decide)

unseal Rat.add Rat.mul Rat.inv Rat.sub Rat.ofScientific in
theorem octree_child_selection_code_bug_witness :
    Box3.ordered rootBoxO ∧ inBox3 rootBoxO imgW6 ∧
    inBox3 (childBoxO rootBoxO (getChildIndexO rootBoxO imgW6)) imgW6 :=
  ⟨⟨by decide, by decide, by decide⟩,
    ⟨by decide, by decide, by decide, by decide, by decide, by decide⟩,
    (octree_child_selection_code_bug.1 rootBoxO imgW6
      ⟨by decide, by decide, by decide⟩
      ⟨by decide, by decide, by decide, by decide, by decide, by decide⟩).2.2⟩
unseal Rat.add Rat.mul Rat.inv Rat.sub Rat.ofScientific in
/-- C8: REFUTED as stated.  part_001's `OctreeSearch::findSimilar` returns
the raw traversal order without sorting: inserting a far record (50,0,0)
before a near one (1,0,0) and querying from (0,0,0) with threshold 100
returns them in insertion order, which is not ascending by distance. -/
theorem part001_octree_query_unsorted :
    buildSB 10 [imgFar8, imgNear8] =
      some (ONode.leaf rootBoxO [imgFar8, imgNear8]) ∧
    findSimilarSB (ONode.leaf rootBoxO [imgFar8, imgNear8]) imgQ8 100 =
      [imgFar8, imgNear8] ∧
    ¬ SortedByDist imgQ8 [imgFar8, imgNear8] := by
  refine ⟨by decide, by decide, ?_⟩
  intro h
  rw [SortedByDist] at h
  have h2 := List.chain'_cons.1 h
  exact absurd h2.1 (by decide)
/-- C8 (amended): the five header-based query functions (linear scan, hash
grid full cube, adaptive hash grid without result limit, octree, quadtree)
always return lists sorted ascending by distance to the query, and a stored
record at exactly distance = threshold is included by every one of them
(the boundary is inclusive); part_001's variants return the same matches
without sorting. -/
theorem queries_sorted_and_boundary_included (cs : Rat) (imgs : List Image)
    (q x : Image) (t : Rat) (fo thro fq thrq : Nat) (ot : ONode) (qt : QNode)
    (hcs : 0 < cs)
    (hwf : ∀ img ∈ imgs, wellFormed img) (hwq : wellFormed q)
    (hbo : buildOctree fo thro imgs = some ot)
    (hbq : buildQuadtree fq thrq imgs = some qt)
    (hx : x ∈ imgs) (ht : 0 ≤ t) (hb : sqDist q x = t * t) :
    SortedByDist q (linearFindSimilar imgs q t) ∧
    SortedByDist q (hashFindSimilar cs imgs q t) ∧
    SortedByDist q (hashDynFindSimilar cs imgs q t) ∧
    SortedByDist q (octreeFindSimilar ot q t) ∧
    SortedByDist q (quadtreeFindSimilar qt q t) ∧
    x ∈ linearFindSimilar imgs q t ∧
    x ∈ hashFindSimilar cs imgs q t ∧
    x ∈ hashDynFindSimilar cs imgs q t ∧
    x ∈ octreeFindSimilar ot q t ∧
    x ∈ quadtreeFindSimilar qt q t := by
  have hdist : distLE q x t = true := by
    rw [distLE, decide_eq_true_eq]
    exact ⟨ht, le_of_eq hb⟩
  have hwx : wellFormed x := hwf x hx
  have hq3 : 0 ≤ q.r ∧ 0 ≤ q.g ∧ 0 ≤ q.b := ⟨hwq.1, hwq.2.2.1, hwq.2.2.2.2.1⟩
  have hx3 : 0 ≤ x.r ∧ 0 ≤ x.g ∧ 0 ≤ x.b := ⟨hwx.1, hwx.2.2.1, hwx.2.2.2.2.1⟩
  have hnolim : ¬ (0 < (-1 : Int) ∧
      (-1 : Int) < ((sortByDist q (dynGo cs imgs (cellKey cs q) q t (-1)
        (intRange 0 ⌈t / cs⌉) [])).length : Int)) := by
    rintro ⟨h1, _⟩
    omega
  have hdyn : hashDynFindSimilar cs imgs q t =
      sortByDist q (dynGo cs imgs (cellKey cs q) q t (-1)
        (intRange 0 ⌈t / cs⌉) []) := by
    rw [hashDynFindSimilar, findSimilarDynamic_eq, if_neg hnolim]
  obtain ⟨hwfo, hcnt⟩ := buildOctree_spec fo thro imgs ot hbo hwf
  obtain ⟨hbxq, hshq, hcontq, hgoodq⟩ := buildQuadtree_spec fq thrq imgs qt hbq hwf
  have hmemO : x ∈ allImagesO ot := by
    have hc := hcnt x
    have hpos : 0 < imgs.count x := List.count_pos_iff.2 hx
    exact List.count_pos_iff.1 (by rw [hc]; exact hpos)
  refine ⟨sortByDist_sorted q _, sortByDist_sorted q _, ?_, sortByDist_sorted q _,
    sortByDist_sorted q _, ?_, ?_, ?_, ?_, ?_⟩
  · rw [hdyn]
    exact sortByDist_sorted q _
  · exact (mem_linearFindSimilar imgs q x t).2 ⟨hx, hdist⟩
  · rw [hashFindSimilar, mem_sortByDist]
    exact hashCubeCollect_complete cs imgs q x t hcs hq3 hx3 hx hdist
  · rw [hdyn, mem_sortByDist, dynGo_no_limit cs imgs (cellKey cs q) q t (-1)
      (by omega) _ []]
    rw [List.nil_append, List.mem_flatMap]
    obtain ⟨r, hr, hxr⟩ := dynShells_complete cs imgs q x t hcs hq3 hx3 hx hdist
    exact ⟨r, hr, hxr⟩
  · rw [octreeFindSimilar, mem_sortByDist]
    exact searchO_complete ot q x t hwfo hmemO hdist
  · rw [quadtreeFindSimilar, mem_sortByDist]
    exact searchQLoop_complete q t [qt] x qt (List.mem_singleton.2 rfl)
      (hgoodq x hx) hdist
unseal Rat.add Rat.mul Rat.inv Rat.sub Rat.ofScientific in
theorem queries_sorted_and_boundary_included_witness :
    SortedByDist imgW8 (linearFindSimilar [imgW8] imgW8 0) ∧
    SortedByDist imgW8 (hashFindSimilar 1 [imgW8] imgW8 0) ∧
    SortedByDist imgW8 (hashDynFindSimilar 1 [imgW8] imgW8 0) ∧
    SortedByDist imgW8 (octreeFindSimilar (ONode.leaf rootBoxO [imgW8]) imgW8 0) ∧
    SortedByDist imgW8 (quadtreeFindSimilar (QNode.leaf rootBoxQ [imgW8]) imgW8 0) ∧
    imgW8 ∈ linearFindSimilar [imgW8] imgW8 0 ∧
    imgW8 ∈ hashFindSimilar 1 [imgW8] imgW8 0 ∧
    imgW8 ∈ hashDynFindSimilar 1 [imgW8] imgW8 0 ∧
    imgW8 ∈ octreeFindSimilar (ONode.leaf rootBoxO [imgW8]) imgW8 0 ∧
    imgW8 ∈ quadtreeFindSimilar (QNode.leaf rootBoxQ [imgW8]) imgW8 0 :=
  queries_sorted_and_boundary_included 1 [imgW8] imgW8 imgW8 0 2 10 0 1
    (ONode.leaf rootBoxO [imgW8]) (QNode.leaf rootBoxQ [imgW8])
    (by decide)
    (by
      intro img him
      rw [List.mem_singleton] at him
      subst him
      exact ⟨by decide, by decide, by decide, by decide, by decide, by decide⟩)
    ⟨by decide, by decide, by decide, by decide, by decide, by decide⟩
    (by decide) (by decide)
    (List.mem_singleton.2 rfl) (by decide) (by decide)
